import Mathlib

/-!
# Verification of the sockeye bucketed data pipeline and loss components

This development embeds, in Lean 4, the parts of the sockeye repository that
its specification describes: the bucketed parallel-corpus data pipeline
(`data_io`: parallel datasets, permutation engine, fill-up, serialization,
sample iterators, sharded iterators, alignment-matrix construction and the
parallel pairing check), the checkpoint decoder's `parallel_subsample`, and
the alignment-matrix KL-divergence loss.

The `data_io` module itself is not present in the source tree (only its unit
tests are), so the pipeline definitions are modelled from the specification,
with the unit tests pinning concrete behaviour.  `checkpoint_decoder.py` and
`loss.py` are present and their relevant functions are translated directly.

External library randomness (Python's `random.Random(seed).sample`,
`random.shuffle`, numpy's `np.random.permutation`) is modelled as a partial
Fisher-Yates selection driven by an abstract stream of raw draws: every
theorem below is quantified over the draw stream, so nothing depends on the
concrete pseudo-random generator.
-/

namespace Sockeye

/-! ## Basic list machinery -/

/-- Index-gather: `gather p l d` is the list whose `i`-th element is
`l[p[i]]` (with default `d` out of range), i.e. the semantics of
`array[permutation]` fancy indexing. -/
def gather (p : List Nat) (l : List α) (d : α) : List α :=
  p.map (fun j => l.getD j d)

@[simp] theorem gather_length (p : List Nat) (l : List α) (d : α) :
    (gather p l d).length = p.length := by
  simp [gather]

theorem gather_getElem (p : List Nat) (l : List α) (d : α) (i : Nat)
    (h : i < p.length) (h2 : i < (gather p l d).length) :
    (gather p l d)[i] = l.getD p[i] d := by
  simp [gather]

/-- Setting a value at the join point of an append. -/
theorem set_append_cons (A : List α) (x v : α) (C : List α) :
    (A ++ x :: C).set A.length v = A ++ v :: C := by
  induction A with
  | nil => rfl
  | cons a tl ih => simp [ih]

/-- Partial Fisher-Yates selection, as CPython's `random.sample` pool
algorithm performs it: pick position `j` from a raw draw, emit `pool[j]`,
overwrite `pool[j]` with the last element of the live range and shrink the
range.  The raw draws are supplied as a list, one per selection step. -/
def fySelect : List Nat → List Nat → List Nat
  | [], _ => []
  | _ :: _, [] => []
  | d :: ds, pool@(_ :: _) =>
    let j := d % pool.length
    pool.getD j 0 :: fySelect ds ((pool.set j (pool.getLast?.getD 0)).dropLast)

theorem fySelect_nil (pool : List Nat) : fySelect [] pool = [] := by
  cases pool <;> rfl

theorem fySelect_cons (d : Nat) (ds pool : List Nat) (hp : pool ≠ []) :
    fySelect (d :: ds) pool =
      pool.getD (d % pool.length) 0 ::
      fySelect ds ((pool.set (d % pool.length) (pool.getLast?.getD 0)).dropLast) := by
  cases pool with
  | nil => exact absurd rfl hp
  | cons a tl => rfl

/-- The Fisher-Yates step preserves the multiset of the pool: the emitted
element together with the shrunken pool is a permutation of the pool. -/
theorem fySelect_step_perm (pool : List Nat) (hp : pool ≠ []) (d : Nat) :
    List.Perm (pool.getD (d % pool.length) 0 ::
      (pool.set (d % pool.length) (pool.getLast?.getD 0)).dropLast) pool := by
  set j := d % pool.length with hj
  have hjlt : j < pool.length := Nat.mod_lt _ (List.length_pos.mpr hp)
  have hgetD : pool.getD j 0 = pool[j] := List.getD_eq_getElem pool 0 hjlt
  have hlenA : (pool.take j).length = j := by
    simp [Nat.le_of_lt hjlt]
  have hdecomp : pool = pool.take j ++ pool[j] :: pool.drop (j + 1) := by
    conv_lhs => rw [← List.take_append_drop j pool]
    rw [List.drop_eq_getElem_cons hjlt]
  rcases List.eq_nil_or_concat (pool.drop (j + 1)) with hB | ⟨B, b, hB⟩
  · -- `j` is the last live position: the write puts `pool[j]` back onto itself
    have hA : pool = pool.take j ++ [pool[j]] := hdecomp.trans (by rw [hB])
    have hpls : pool.getLast?.getD 0 = pool[j] := by
      conv_lhs => rw [hA]
      rw [List.getLast?_concat]
      rfl
    have hset : pool.set j (pool.getLast?.getD 0) = pool := by
      rw [hpls]
      apply List.ext_getElem (by simp)
      intro i h1 h2
      rw [List.getElem_set]
      split
      next h => exact getElem_congr h
      next h => rfl
    rw [hgetD, hset]
    have hdl : pool.dropLast = pool.take j := by
      conv_lhs => rw [hA]
      exact List.dropLast_concat
    rw [hdl]
    conv_rhs => rw [hA]
    exact (List.perm_append_singleton _ _).symm
  · -- the last live element `b` replaces the emitted `pool[j]`
    rw [List.concat_eq_append] at hB
    have hA3 : pool = pool.take j ++ pool[j] :: (B ++ [b]) := hdecomp.trans (by rw [hB])
    have hA2 : pool = (pool.take j ++ pool[j] :: B) ++ [b] :=
      hdecomp.trans (by rw [hB]; simp)
    have hpls : pool.getLast?.getD 0 = b := by
      conv_lhs => rw [hA2]
      rw [List.getLast?_concat]
      rfl
    have hset : pool.set j (pool.getLast?.getD 0)
        = pool.take j ++ b :: (B ++ [b]) := by
      rw [hpls]
      conv_lhs => rw [hA3]
      rw [show (pool.take j ++ pool[j] :: (B ++ [b])).set j b
            = (pool.take j ++ pool[j] :: (B ++ [b])).set (pool.take j).length b from by
          rw [hlenA]]
      exact set_append_cons _ _ _ _
    have hdl : (pool.take j ++ b :: (B ++ [b])).dropLast = pool.take j ++ b :: B := by
      rw [show pool.take j ++ b :: (B ++ [b]) = (pool.take j ++ b :: B) ++ [b] from by simp]
      exact List.dropLast_concat
    rw [hgetD, hset, hdl]
    conv_rhs => rw [hA3]
    refine List.Perm.trans (List.Perm.cons _ List.perm_middle) ?_
    refine List.Perm.symm (List.Perm.trans List.perm_middle ?_)
    refine List.Perm.cons _ ?_
    rw [← List.append_assoc]
    exact List.perm_append_singleton _ _

/-- Every selected element comes from the pool. -/
theorem fySelect_mem {x : Nat} :
    ∀ (ds pool : List Nat), x ∈ fySelect ds pool → x ∈ pool := by
  intro ds
  induction ds with
  | nil =>
    intro pool h
    rw [fySelect_nil] at h
    exact absurd h (List.not_mem_nil x)
  | cons d ds ih =>
    intro pool h
    cases hpool : pool with
    | nil =>
      subst hpool
      exact absurd h (List.not_mem_nil x)
    | cons a tl =>
      subst hpool
      rw [fySelect_cons _ _ _ (List.cons_ne_nil a tl)] at h
      have hperm := fySelect_step_perm (a :: tl) (List.cons_ne_nil a tl) d
      rcases List.mem_cons.mp h with h1 | h2
      · subst h1
        exact hperm.mem_iff.mp (List.mem_cons_self _ _)
      · exact hperm.mem_iff.mp (List.mem_cons_of_mem _ (ih _ h2))

/-- When there are at least as many draws as pool elements, Fisher-Yates
selection emits a permutation of the pool (Python's `random.shuffle` /
`np.random.permutation`). -/
theorem fySelect_perm :
    ∀ (ds pool : List Nat), pool.length ≤ ds.length → List.Perm (fySelect ds pool) pool := by
  intro ds
  induction ds with
  | nil =>
    intro pool h
    have : pool = [] := List.eq_nil_of_length_eq_zero (Nat.le_zero.mp h)
    subst this
    simp [fySelect_nil]
  | cons d ds ih =>
    intro pool h
    cases hpool : pool with
    | nil =>
      show List.Perm [] []
      exact List.Perm.nil
    | cons a tl =>
      subst hpool
      rw [fySelect_cons _ _ _ (List.cons_ne_nil a tl)]
      have hlen : ((( a :: tl).set (d % (a :: tl).length)
          (((a :: tl).getLast?).getD 0)).dropLast).length ≤ ds.length := by
        simp at h ⊢
        omega
      have hperm := ih _ hlen
      exact List.Perm.trans (hperm.cons _)
        (fySelect_step_perm (a :: tl) (List.cons_ne_nil a tl) d)

theorem fySelect_length_of_le (ds pool : List Nat) (h : pool.length ≤ ds.length) :
    (fySelect ds pool).length = pool.length :=
  (fySelect_perm ds pool h).length_eq

/-- `(fySelect ds pool).length = min ds.length pool.length`. -/
theorem fySelect_length :
    ∀ (ds pool : List Nat), (fySelect ds pool).length = min ds.length pool.length := by
  intro ds
  induction ds with
  | nil =>
    intro pool
    rw [fySelect_nil]
    simp
  | cons d ds ih =>
    intro pool
    cases pool with
    | nil => simp [fySelect]
    | cons a tl =>
      rw [fySelect_cons _ _ _ (List.cons_ne_nil a tl)]
      simp only [List.length_cons, ih, List.length_dropLast, List.length_set]
      omega

/-- `getD` through a `map`, inside the length bound. -/
theorem getD_map_lt (f : α → β) (l : List α) (i : Nat) (d : β) (h : i < l.length) :
    (l.map f).getD i d = f (l[i]) := by
  rw [List.getD_eq_getElem _ _ (by simpa using h), List.getElem_map]

/-! ## `loss.py`: AlignmentMatrixKLDivergenceLoss (C10)

A rank-3 tensor of shape (batch, target length, source length) is embedded
as nested lists of rationals.  The only floating-point operation in the
non-trivial branch, `pt.log`, is abstracted as an arbitrary function
`log : ℚ → ℚ`; the claim under scrutiny concerns only the empty-sentinel
branch, which involves no arithmetic at all. -/

abbrev Tensor3 := List (List (List ℚ))

/-- `Tensor.numel()` of a rank-3 tensor: total number of scalar entries. -/
def numel3 (t : Tensor3) : Nat :=
  (t.map (fun m => (m.map List.length).sum)).sum

/-- `AlignmentMatrixKLDivergenceLoss.forward` from `src/sockeye/loss.py`:
if the alignment matrix is the empty sentinel (zero elements) it returns
`(0, 1)`; otherwise it computes
`-(alignment_matrix * log(attention + 1e-8)).sum(dim=2).sum(dim=1) / shape[1]`,
multiplies by the loss weight and takes the batch mean.  The first returned
component is the loss scalar, the second the sample count. -/
def alignmentMatrixKLDivergenceLossForward (log : ℚ → ℚ) (weight : ℚ)
    (alignment_head_attention alignment_matrix : Tensor3) : ℚ × ℚ :=
  if numel3 alignment_matrix = 0 then (0, 1)
  else
    let perBatch := (alignment_matrix.zip alignment_head_attention).map
      (fun bm =>
        -(((bm.1.zip bm.2).map
            (fun rows => ((rows.1.zip rows.2).map
              (fun e => e.1 * log (e.2 + 1 / 100000000))).sum)).sum)
          / ((alignment_matrix.getD 0 []).length : ℚ))
    let wPerBatch := perBatch.map (· * weight)
    (wPerBatch.sum / (wPerBatch.length : ℚ), 1)

/-- C10: when the supplied alignment-matrix tensor is the empty sentinel
(zero elements), `AlignmentMatrixKLDivergenceLoss.forward` returns a loss of
exactly 0 and a sample count of 1, regardless of the attention-probability
input (and of the log function and loss weight). -/
theorem c10_alignment_kl_loss_empty_sentinel (log : ℚ → ℚ) (weight : ℚ)
    (alignment_head_attention alignment_matrix : Tensor3)
    (h : numel3 alignment_matrix = 0) :
    alignmentMatrixKLDivergenceLossForward log weight
      alignment_head_attention alignment_matrix = (0, 1) := by
  rw [alignmentMatrixKLDivergenceLossForward, if_pos h]

/-- Witness for C10 at a concrete input: a batch containing one sample with
an empty (0-element) alignment matrix and a non-trivial attention tensor. -/
theorem c10_alignment_kl_loss_empty_sentinel_witness :
    numel3 [[], [[]]] = 0 ∧
    alignmentMatrixKLDivergenceLossForward id 2 [[[1/2, 1/2]]] [[], [[]]] = (0, 1) :=
  ⟨by decide, c10_alignment_kl_loss_empty_sentinel id 2 [[[1/2, 1/2]]] [[], [[]]] (by decide)⟩

/-! ## `checkpoint_decoder.py`: parallel_subsample (C9)

Python's `zip(*xss)` is embedded as `pyZip` (transpose truncated to the
shortest row), and `random.Random(seed).sample(population, k)` as `pySample`:
a partial Fisher-Yates selection over the population indices, driven by a raw
draw stream derived from the seed alone.  The process-global random state is
made explicit as a parameter so that independence from it is expressible. -/

/-- Length of the shortest row (`zip` truncation length). -/
def minLen (xss : List (List α)) : Nat :=
  match xss with
  | [] => 0
  | x :: rest => rest.foldl (fun m l => min m l.length) x.length

/-- Python `list(zip(*xss))`: the transpose of `xss`, truncated to the
shortest row; `zip()` of no iterables is empty. -/
def pyZip [Inhabited α] (xss : List (List α)) : List (List α) :=
  match xss with
  | [] => []
  | _ :: _ => (List.range (minLen xss)).map (fun i => xss.map (fun xs => xs.getD i default))

/-- `random.Random(seed).sample(population, k)`: `ValueError` (modelled as
`none`) when `k` exceeds the population size, otherwise `k` distinct
positions chosen by seeded partial Fisher-Yates over the index pool. -/
def pySample [Inhabited α] (stream : Nat → Nat) (population : List α) (k : Nat) :
    Option (List α) :=
  if population.length < k then none
  else some ((fySelect ((List.range k).map stream) (List.range population.length)).map
    (fun i => population.getD i default))

/-- `parallel_subsample` from `src/sockeye/checkpoint_decoder.py`:
`list(zip(*random_gen.sample(list(zip(*parallel_sequences)), sample_size)))`
where `random_gen = random.Random(seed)`.  The first argument models the
process-global random generator state; the function never reads it, because
the source constructs its own generator from `seed`. -/
def parallel_subsample [Inhabited α] (globalRandomState : Nat) (draws : Nat → Nat → Nat)
    (parallel_sequences : List (List α)) (sample_size : Nat) (seed : Nat) :
    Option (List (List α)) :=
  (pySample (draws seed) (pyZip parallel_sequences) sample_size).map pyZip

theorem minLen_of_const {L : Nat} :
    ∀ (xss : List (List α)), xss ≠ [] → (∀ l ∈ xss, l.length = L) → minLen xss = L := by
  intro xss hne hlen
  match xss with
  | x :: rest =>
    have hx : x.length = L := hlen x (List.mem_cons_self _ _)
    rw [minLen, hx]
    have : ∀ (rest : List (List α)), (∀ l ∈ rest, l.length = L) →
        rest.foldl (fun m l => min m l.length) L = L := by
      intro rest
      induction rest with
      | nil => intro _; rfl
      | cons y ys ih =>
        intro hmem
        have hy : y.length = L := hmem y (List.mem_cons_self _ _)
        simp only [List.foldl_cons, hy, Nat.min_self]
        exact ih (fun l hl => hmem l (List.mem_cons_of_mem _ hl))
    exact this rest (fun l hl => hlen l (List.mem_cons_of_mem _ hl))

theorem pyZip_length [Inhabited α] (xss : List (List α)) (hne : xss ≠ []) :
    (pyZip xss).length = minLen xss := by
  match xss with
  | x :: rest => simp [pyZip]

theorem pyZip_getD [Inhabited α] (xss : List (List α)) (hne : xss ≠ []) (r : Nat)
    (hr : r < minLen xss) :
    (pyZip xss).getD r [] = xss.map (fun xs => xs.getD r default) := by
  match xss with
  | x :: rest =>
    rw [pyZip]
    rw [getD_map_lt _ _ _ _ (by simpa using hr), List.getElem_range]

/-- C9: `parallel_subsample`, given equal-length parallel sequences, a sample
size and a seed, is deterministic — its result is independent of the
process-global random state, because it draws only from the generator
constructed from `seed` — and it preserves cross-sequence pairing: every
output position carries, in all returned sequences, the elements of one
common index of the input sequences. -/
theorem c9_parallel_subsample_deterministic_pairing {α : Type} [Inhabited α]
    (draws : Nat → Nat → Nat) (seed : Nat) (seqs : List (List α)) (k L : Nat)
    (hne : seqs ≠ []) (hlen : ∀ l ∈ seqs, l.length = L) (hk : k ≤ L) :
    (∀ g1 g2 : Nat, parallel_subsample g1 draws seqs k seed
        = parallel_subsample g2 draws seqs k seed) ∧
    ∃ out, parallel_subsample 0 draws seqs k seed = some out ∧
      ∀ p, p < k → ∃ i, i < L ∧ ∀ r, r < seqs.length →
        (out.getD r []).getD p default = (seqs.getD r []).getD i default := by
  constructor
  · intro g1 g2
    rfl
  · -- the zipped population: L rows, one per common input index
    have hTlen : (pyZip seqs).length = L := by
      rw [pyZip_length seqs hne, minLen_of_const seqs hne hlen]
    have hnotlt : ¬ (pyZip seqs).length < k := by omega
    set idxs := fySelect ((List.range k).map (draws seed))
      (List.range (pyZip seqs).length) with hidxs
    have hidxlen : idxs.length = k := by
      rw [hidxs, fySelect_length]
      simp [hTlen]
      omega
    set sel := idxs.map (fun i => (pyZip seqs).getD i default) with hsel
    have hout : parallel_subsample 0 draws seqs k seed = some (pyZip sel) := by
      rw [parallel_subsample, pySample, if_neg hnotlt]
      rfl
    refine ⟨pyZip sel, hout, ?_⟩
    intro p hp
    have hplt : p < idxs.length := by omega
    have hmem : idxs[p] ∈ List.range (pyZip seqs).length :=
      fySelect_mem _ _ (by rw [← hidxs]; exact List.getElem_mem hplt)
    have hiL : idxs[p] < L := by
      have := List.mem_range.mp hmem
      omega
    refine ⟨idxs[p], hiL, ?_⟩
    intro r hr
    -- each selected row is a row of the transpose, of length `seqs.length`
    have hrowlen : ∀ q, q < idxs.length → (sel.getD q []).length = seqs.length := by
      intro q hq
      have hqmem : idxs[q] ∈ List.range (pyZip seqs).length :=
        fySelect_mem _ _ (by rw [← hidxs]; exact List.getElem_mem hq)
      have hqL : idxs[q] < L := by
        have := List.mem_range.mp hqmem
        omega
      have : sel.getD q [] = (pyZip seqs).getD idxs[q] default := by
        rw [hsel, getD_map_lt _ _ _ _ hq]
      rw [this, show (default : List α) = [] from rfl,
        pyZip_getD seqs hne idxs[q] (by rw [minLen_of_const seqs hne hlen]; omega)]
      simp
    have hsellen : sel.length = k := by
      rw [hsel, List.length_map, hidxlen]
    have hselne : sel ≠ [] := by
      intro hcon
      rw [hcon] at hsellen
      simp at hsellen
      omega
    have hminsel : minLen sel = seqs.length := by
      apply minLen_of_const sel hselne
      intro l hl
      rcases List.getElem_of_mem hl with ⟨q, hq, hlq⟩
      have hq2 : q < idxs.length := by rw [hsellen] at hq; omega
      have := hrowlen q hq2
      rw [List.getD_eq_getElem _ _ hq, hlq] at this
      exact this
    -- unfold one entry of the final transpose
    rw [pyZip_getD sel hselne r (by omega),
      getD_map_lt _ _ _ _ (by omega : p < sel.length)]
    have hplt2 : p < sel.length := by omega
    have hselp : sel[p] = (pyZip seqs).getD idxs[p] default := by
      have := getD_map_lt (fun i => (pyZip seqs).getD i default) idxs p [] hplt
      rw [← hsel] at this
      rw [← this, List.getD_eq_getElem _ _ hplt2]
    rw [hselp, show (default : List α) = [] from rfl,
      pyZip_getD seqs hne idxs[p] (by rw [minLen_of_const seqs hne hlen]; omega),
      getD_map_lt _ _ _ _ hr, List.getD_eq_getElem _ _ hr]

/-- Witness for C9 at a concrete input: two parallel rows of length 3,
sample size 2, an arbitrary draw stream and two distinct global states. -/
theorem c9_parallel_subsample_witness :
    ([[10, 20, 30], [40, 50, 60]] : List (List Nat)) ≠ [] ∧
    (∀ g1 g2 : Nat, parallel_subsample g1 (fun _ i => i + 1)
        [[10, 20, 30], [40, 50, 60]] 2 7
      = parallel_subsample g2 (fun _ i => i + 1) [[10, 20, 30], [40, 50, 60]] 2 7) ∧
    ∃ out, parallel_subsample 0 (fun _ i => i + 1) [[10, 20, 30], [40, 50, 60]] 2 7
        = some out ∧
      ∀ p, p < 2 → ∃ i, i < 3 ∧ ∀ r, r < ([[10, 20, 30], [40, 50, 60]] :
          List (List Nat)).length →
        (out.getD r []).getD p default
          = (([[10, 20, 30], [40, 50, 60]] : List (List Nat)).getD r []).getD i default := by
  refine ⟨by decide, ?_⟩
  exact c9_parallel_subsample_deterministic_pairing (fun _ i => i + 1) 7
    [[10, 20, 30], [40, 50, 60]] 2 3 (by decide)
    (by intro l hl; fin_cases hl <;> rfl) (by decide)

/-! ## `data_io`: target/label shifting (C6)

`data_io.py` is absent from the source tree; `create_target_and_shifted_label_sequences`
is modelled from the spec (section 4.6 and the worked example in section 8)
and from the unit test `test_create_target_and_shifted_label_sequences`,
which pin the behaviour: label drops the leading start sentinel, target drops
the final position and masks end-sentinel occurrences to padding.  A batched
sequence tensor of shape (batch, length, factors) is embedded as nested
lists of token ids. -/

def PAD_ID : Int := 0
def BOS_ID : Int := 2
def EOS_ID : Int := 3

/-- Modelled from the spec: `create_target_and_shifted_label_sequences`
(absent `data_io.py`), behaviour fixed by the spec's worked example and the
unit test: `label = sequence[:, 1:]`, `target = sequence[:, :-1]` with every
end-sentinel in the target replaced by the padding id. -/
def create_target_and_shifted_label_sequences (target_and_label : List (List (List Int))) :
    List (List (List Int)) × List (List (List Int)) :=
  (target_and_label.map (fun row =>
      row.dropLast.map (fun pos => pos.map (fun t => if t = EOS_ID then PAD_ID else t))),
   target_and_label.map (fun row => row.tail))

/-- The per-sample true length derived from a (masked) target row: the
number of non-padding positions. -/
def derived_length (target_row : List (List Int)) : Nat :=
  target_row.countP (fun pos => pos.any (fun t => t != PAD_ID))

/-- C6 counterexample: on the spec's own example `[BOS,4,17,35,12,EOS,PAD,PAD]`
the returned target is NOT literally `sequence[:-1]` (which would retain the
end sentinel): the end sentinel is masked to padding, as the unit test and the
spec's worked example demand, so the claim's clause `target = sequence[:-1]`
fails at this input. -/
theorem c6_shifting_counterexample :
    (create_target_and_shifted_label_sequences
        [[[BOS_ID], [4], [17], [35], [12], [EOS_ID], [PAD_ID], [PAD_ID]]]).1
      ≠ [[[BOS_ID], [4], [17], [35], [12], [EOS_ID], [PAD_ID]]] := by
  decide

/-- C6 (amended): `label = sequence[1:]`; `target = sequence[:-1]` with
end-sentinel positions masked to padding; the derived per-sample length is the
count of non-padding positions of the (masked) target.  On the unit test's
batch (including `[BOS,4,17,35,12,EOS,PAD,PAD]`) this yields exactly the
expected targets, labels and lengths `[5, 7, 2]`. -/
theorem c6_shifting_amended :
    (∀ tl : List (List (List Int)),
      create_target_and_shifted_label_sequences tl
        = (tl.map (fun row =>
             row.dropLast.map (fun pos => pos.map (fun t => if t = EOS_ID then PAD_ID else t))),
           tl.map (fun row => row.tail))) ∧
    create_target_and_shifted_label_sequences
        [[[BOS_ID], [4], [17], [35], [12], [EOS_ID], [PAD_ID], [PAD_ID]],
         [[BOS_ID], [15], [23], [23], [77], [55], [22], [EOS_ID]],
         [[BOS_ID], [4], [EOS_ID], [PAD_ID], [PAD_ID], [PAD_ID], [PAD_ID], [PAD_ID]]]
      = ([[[BOS_ID], [4], [17], [35], [12], [PAD_ID], [PAD_ID]],
          [[BOS_ID], [15], [23], [23], [77], [55], [22]],
          [[BOS_ID], [4], [PAD_ID], [PAD_ID], [PAD_ID], [PAD_ID], [PAD_ID]]],
         [[[4], [17], [35], [12], [EOS_ID], [PAD_ID], [PAD_ID]],
          [[15], [23], [23], [77], [55], [22], [EOS_ID]],
          [[4], [EOS_ID], [PAD_ID], [PAD_ID], [PAD_ID], [PAD_ID], [PAD_ID]]]) ∧
    [[[BOS_ID], [4], [17], [35], [12], [PAD_ID], [PAD_ID]],
     [[BOS_ID], [15], [23], [23], [77], [55], [22]],
     [[BOS_ID], [4], [PAD_ID], [PAD_ID], [PAD_ID], [PAD_ID], [PAD_ID]]].map derived_length
      = [5, 7, 2] := by
  refine ⟨fun tl => rfl, ?_, ?_⟩ <;> decide

/-! ## `data_io`: alignment-matrix construction (C7) -/

/-- Modelled from the spec: `create_alignment_matrix(indexes, bucket_size)`
(absent `data_io.py`), spec section 4.8: a sparse matrix of shape
`(1, bucket_source_len * bucket_target_len)` built from `(source, target)`
index pairs, row-normalized so that each target position's incoming weights
sum to 1 when it has at least one aligned source position, else all zero.
The flattened row is embedded densely: the entry for flat position `pos`
(source `pos % S`, target `pos / S`) is the number of pairs hitting that cell
divided by the number of pairs aligned to that target position (0 when the
target position has no alignment, since `x / 0 = 0` in `ℚ`). -/
def create_alignment_matrix (indexes : List (Nat × Nat)) (bucket_size : Nat × Nat) :
    List ℚ :=
  (List.range (bucket_size.1 * bucket_size.2)).map (fun pos =>
    ((indexes.countP
        (fun p => p.1 == pos % bucket_size.1 && p.2 == pos / bucket_size.1) : ℚ))
      / ((indexes.countP (fun p => p.2 == pos / bucket_size.1) : ℚ)))

/-- Counting pairs cell-by-cell along a target row sums to the number of
pairs on that target position whose source index is in range. -/
theorem sum_countP_row (l : List (Nat × Nat)) (t S : Nat) :
    (∑ si ∈ Finset.range S, l.countP (fun p => p.1 == si && p.2 == t))
      = l.countP (fun p => decide (p.1 < S) && p.2 == t) := by
  induction l with
  | nil => simp
  | cons a l ih =>
    simp only [List.countP_cons]
    rw [Finset.sum_add_distrib, ih]
    congr 1
    by_cases h2 : a.2 = t
    · simp only [h2, beq_self_eq_true, Bool.and_true]
      rw [show (fun si => if (a.1 == si) = true then 1 else 0)
            = (fun si => if a.1 = si then 1 else 0) from by
          funext si
          simp]
      rw [Finset.sum_ite_eq (Finset.range S) a.1 (fun _ => 1)]
      simp [Finset.mem_range]
    · have hne : (a.2 == t) = false := beq_eq_false_iff_ne.mpr h2
      simp [hne]

/-- C7: `create_alignment_matrix` returns a flat matrix of length
`bucket_source_len * bucket_target_len`; viewed per target position the
entries sum to 1 when that target position has at least one aligned source
position and are all zero (sum 0) otherwise; and the two concrete unit-test
instances hold: `[[0,0]]` on bucket `(1,1)` gives `[1]`, `[]` gives `[0]`. -/
theorem c7_create_alignment_matrix (indexes : List (Nat × Nat)) (bucket_size : Nat × Nat)
    (hin : ∀ p ∈ indexes, p.1 < bucket_size.1 ∧ p.2 < bucket_size.2) :
    (create_alignment_matrix indexes bucket_size).length
        = bucket_size.1 * bucket_size.2 ∧
    (∀ t, t < bucket_size.2 →
      (∑ si ∈ Finset.range bucket_size.1,
          (create_alignment_matrix indexes bucket_size).getD (t * bucket_size.1 + si) 0)
        = if ∃ p ∈ indexes, p.2 = t then 1 else 0) ∧
    create_alignment_matrix [(0, 0)] (1, 1) = [1] ∧
    create_alignment_matrix [] (1, 1) = [0] := by
  obtain ⟨S, T⟩ := bucket_size
  refine ⟨by simp [create_alignment_matrix], ?_,
    by norm_num [create_alignment_matrix, List.countP, List.countP.go, List.range_succ],
    by norm_num [create_alignment_matrix, List.countP, List.countP.go, List.range_succ]⟩
  intro t ht
  have hentry : ∀ si, si < S →
      (create_alignment_matrix indexes (S, T)).getD (t * S + si) 0
        = ((indexes.countP (fun p => p.1 == si && p.2 == t) : ℚ))
            / ((indexes.countP (fun p => p.2 == t) : ℚ)) := by
    intro si hsi
    have hS : 0 < S := by omega
    have hposlt : t * S + si < S * T := by
      have h1 : t * S + si < (t + 1) * S := by
        rw [Nat.add_mul, Nat.one_mul]
        omega
      have h2 : (t + 1) * S ≤ T * S := Nat.mul_le_mul_right S (by omega)
      rw [Nat.mul_comm S T]
      omega
    rw [create_alignment_matrix]
    rw [getD_map_lt _ _ _ _ (by simpa using hposlt), List.getElem_range]
    have hmod : (t * S + si) % S = si := by
      rw [Nat.add_comm, Nat.add_mul_mod_self_right, Nat.mod_eq_of_lt hsi]
    have hdiv : (t * S + si) / S = t := by
      rw [Nat.add_comm, Nat.add_mul_div_right _ _ hS, Nat.div_eq_of_lt hsi]
      omega
    rw [hmod, hdiv]
  rw [Finset.sum_congr rfl
    (fun si hsi => hentry si (Finset.mem_range.mp hsi))]
  rw [← Finset.sum_div]
  rw [← Nat.cast_sum, sum_countP_row indexes t S]
  have hcongr : indexes.countP (fun p => decide (p.1 < S) && p.2 == t)
      = indexes.countP (fun p => p.2 == t) := by
    apply List.countP_congr
    intro p hp
    have := (hin p hp).1
    simp [this]
  rw [hcongr]
  by_cases hex : ∃ p ∈ indexes, p.2 = t
  · rw [if_pos hex]
    have hpos : 0 < indexes.countP (fun p => p.2 == t) := by
      rcases hex with ⟨p, hp, hpt⟩
      apply List.countP_pos_iff.mpr
      exact ⟨p, hp, by simp [hpt]⟩
    exact div_self (by positivity)
  · rw [if_neg hex]
    have hzero : indexes.countP (fun p => p.2 == t) = 0 := by
      apply List.countP_eq_zero.mpr
      intro p hp
      simp only [beq_iff_eq]
      intro hpt
      exact hex ⟨p, hp, by simpa using hpt⟩
    rw [hzero]
    simp

/-- Witness for C7 at a concrete input: pairs `[(0,0),(1,0)]` on bucket
`(2,3)` (target 0 aligned to both sources, targets 1 and 2 unaligned). -/
theorem c7_create_alignment_matrix_witness :
    (∀ p ∈ ([(0, 0), (1, 0)] : List (Nat × Nat)), p.1 < 2 ∧ p.2 < 3) ∧
    ((create_alignment_matrix [(0, 0), (1, 0)] (2, 3)).length = 2 * 3 ∧
    (∀ t, t < 3 →
      (∑ si ∈ Finset.range 2,
          (create_alignment_matrix [(0, 0), (1, 0)] (2, 3)).getD (t * 2 + si) 0)
        = if ∃ p ∈ ([(0, 0), (1, 0)] : List (Nat × Nat)), p.2 = t then 1 else 0) ∧
    create_alignment_matrix [(0, 0)] (1, 1) = [1] ∧
    create_alignment_matrix [] (1, 1) = [0]) :=
  ⟨by decide, c7_create_alignment_matrix [(0, 0), (1, 0)] (2, 3) (by decide)⟩

/-! ## `data_io`: parallel pairing of source/target/alignment streams (C8)

Modelled from the spec (sections 4.x and 7) and the unit tests
`test_nonparallel_iter`, `test_not_source_token_parallel_iter`,
`test_parallel_iter`: each factor stream is a list of optional encoded
sentences (a `none` entry is a blank line); pairing checks that all streams
have the same sentence count (else the parallelism-violation error), skips
any line where some source or target factor is blank, and checks that the
factors of each emitted line are token-parallel. -/

def parallelismErrorMsg : String :=
  "Different number of lines in source(s) or target(s) or alignment matrix (if specified) iterables."

def srcTokenErrorMsg : String := "Source sequences are not token-parallel"

def tgtTokenErrorMsg : String := "Target sequences are not token-parallel"

/-- The sentence counts of every stream handed to `parallel_iter`: all source
factor streams, all target factor streams, and the alignment stream when
supplied. -/
def streamLengths (sources targets : List (List (Option (List Int))))
    (al : Option (List Nat)) : List Nat :=
  sources.map List.length ++ targets.map List.length ++
    (match al with
     | some a => [a.length]
     | none => [])

def lengthsAllEqual (ls : List Nat) : Bool :=
  match ls with
  | [] => true
  | l :: rest => rest.all (fun x => x == l)

/-- The sentences of all factor streams at line `i`. -/
def rowAt (streams : List (List (Option (List Int)))) (i : Nat) :
    List (Option (List Int)) :=
  streams.map (fun st => st.getD i none)

def allSameLength (ls : List (List Int)) : Bool :=
  match ls with
  | [] => true
  | x :: rest => rest.all (fun l => l.length == x.length)

/-- The pairing loop of `parallel_iter` over the line indices: skip lines
with a blank source or target factor, reject non-token-parallel factors,
otherwise emit the (source factors, target factors, alignment entry) triple. -/
def pairRows (sources targets : List (List (Option (List Int))))
    (al : Option (List Nat)) :
    List Nat → Except String (List (List (List Int) × List (List Int) × Option Nat))
  | [] => Except.ok []
  | i :: rest =>
    let ss := rowAt sources i
    let ts := rowAt targets i
    if ss.any (fun o => o.isNone) || ts.any (fun o => o.isNone) then
      pairRows sources targets al rest
    else
      let ssv := ss.filterMap id
      let tsv := ts.filterMap id
      if ¬ allSameLength ssv then Except.error srcTokenErrorMsg
      else if ¬ allSameLength tsv then Except.error tgtTokenErrorMsg
      else
        match pairRows sources targets al rest with
        | Except.error e => Except.error e
        | Except.ok tail => Except.ok ((ssv, tsv, al.map (fun a => a.getD i 0)) :: tail)

/-- The common sentence count when all streams agree (count of the first
stream present). -/
def commonLen (sources targets : List (List (Option (List Int))))
    (al : Option (List Nat)) : Nat :=
  match streamLengths sources targets al with
  | [] => 0
  | l :: _ => l

/-- Modelled from the spec: `parallel_iter` (absent `data_io.py`), spec
sections 4 and 7: before pairing, the sentence counts of all source, target
and (optional) alignment streams must agree; a mismatch aborts with the
parallelism-violation error and no sentence pair is produced (the `Except`
error carries no partial output).  Otherwise the streams are paired line by
line, skipping blank lines and enforcing token-parallel factors. -/
def parallel_iter (sources targets : List (List (Option (List Int))))
    (al : Option (List Nat)) :
    Except String (List (List (List Int) × List (List Int) × Option Nat)) :=
  if lengthsAllEqual (streamLengths sources targets al) then
    pairRows sources targets al (List.range (commonLen sources targets al))
  else Except.error parallelismErrorMsg

theorem lengthsAllEqual_all {ls : List Nat} (h : lengthsAllEqual ls = true) :
    ∀ x ∈ ls, ∀ y ∈ ls, x = y := by
  match ls with
  | [] => intro x hx; exact absurd hx (List.not_mem_nil x)
  | l :: rest =>
    have hall : ∀ x ∈ rest, x = l := by
      intro x hx
      have := (List.all_eq_true.mp h) x hx
      simpa using this
    intro x hx y hy
    have hx' : x = l := by
      rcases List.mem_cons.mp hx with h1 | h1
      · exact h1
      · exact hall x h1
    have hy' : y = l := by
      rcases List.mem_cons.mp hy with h1 | h1
      · exact h1
      · exact hall y h1
    rw [hx', hy']

/-- C8: whenever two of the streams handed to `parallel_iter` differ in
sentence count — source factors, target factors, or the optional alignment
stream — the iteration aborts with the parallelism-violation error carrying
the descriptive message, and (the result being the bare error) no sentence
pair is produced. -/
theorem c8_parallel_iter_count_mismatch (sources targets : List (List (Option (List Int))))
    (al : Option (List Nat))
    (h : ∃ m ∈ streamLengths sources targets al,
         ∃ n ∈ streamLengths sources targets al, m ≠ n) :
    parallel_iter sources targets al = Except.error parallelismErrorMsg := by
  rw [parallel_iter]
  rcases h with ⟨m, hm, n, hn, hmn⟩
  rw [if_neg]
  intro hall
  exact hmn (lengthsAllEqual_all hall m hm n hn)

/-- Witness for C8 at the unit test's first non-parallel instance: two
source factor streams of 4 lines against one target stream of 2 lines. -/
theorem c8_parallel_iter_count_mismatch_witness :
    (∃ m ∈ streamLengths
        [[some [0], some [1, 1], some [2], some [3, 3, 3]],
         [some [0], some [1, 1], some [2], some [3, 3, 3]]]
        [[some [0], some [1]]] none,
     ∃ n ∈ streamLengths
        [[some [0], some [1, 1], some [2], some [3, 3, 3]],
         [some [0], some [1, 1], some [2], some [3, 3, 3]]]
        [[some [0], some [1]]] none, m ≠ n) ∧
    parallel_iter
        [[some [0], some [1, 1], some [2], some [3, 3, 3]],
         [some [0], some [1, 1], some [2], some [3, 3, 3]]]
        [[some [0], some [1]]] none
      = Except.error parallelismErrorMsg :=
  ⟨by decide, c8_parallel_iter_count_mismatch _ _ none (by decide)⟩

/-! ## `data_io`: the Parallel Dataset and the Permutation Engine (C3)

Modelled from the spec, sections 3, 4.3 and 4.4 (with `data_io.py` absent
from the source tree).  A bucket's source/target arrays are lists of samples,
a sample being a (positions x factors) list of token ids; the optional
prepended-source-length array holds one number per sample; the optional
alignment-matrix array holds one sparse row (column indices, values, flat
width) per sample — "samples stacked along the first axis". -/

abbrev Sample := List (List Int)

structure SparseRow where
  cols : List Nat
  vals : List ℚ
  width : Nat
deriving DecidableEq

instance : Inhabited SparseRow := ⟨⟨[], [], 0⟩⟩

structure ParallelDataSet where
  source : List (List Sample)
  target : List (List Sample)
  prepended_source_length : Option (List (List Nat))
  alignment_matrix : Option (List (List SparseRow))
deriving DecidableEq

instance : Inhabited ParallelDataSet := ⟨⟨[], [], none, none⟩⟩

/-- `dataset.get_bucket_counts()`: number of samples per bucket. -/
def get_bucket_counts (ds : ParallelDataSet) : List Nat :=
  ds.source.map List.length

/-- All per-bucket arrays of `xs` match the source arrays in count. -/
def bucketLensOk (xs : List (List γ)) (src : List (List Sample)) : Bool :=
  xs.length == src.length &&
  (List.range src.length).all
    (fun b => (xs.getD b []).length == (src.getD b []).length)

/-- The spec's dataset invariant: all per-bucket parallel arrays share the
same leading (sample-count) dimension. -/
def pdsWf (ds : ParallelDataSet) : Bool :=
  bucketLensOk ds.target ds.source &&
  (match ds.prepended_source_length with
   | none => true
   | some pl => bucketLensOk pl ds.source) &&
  (match ds.alignment_matrix with
   | none => true
   | some al => bucketLensOk al ds.source)

theorem bucketLensOk_spec {xs : List (List γ)} {src : List (List Sample)}
    (h : bucketLensOk xs src = true) :
    xs.length = src.length ∧
    ∀ b, b < src.length → (xs.getD b []).length = (src.getD b []).length := by
  rw [bucketLensOk, Bool.and_eq_true] at h
  refine ⟨by simpa using h.1, ?_⟩
  intro b hb
  have := (List.all_eq_true.mp h.2) b (List.mem_range.mpr hb)
  simpa using this

/-- The inverse permutation, as the spec's Permutation Engine produces it:
`inverse[j]` is the position of value `j` in the permutation. -/
def invPerm (p : List Nat) : List Nat :=
  (List.range p.length).map (fun j => p.indexOf j)

/-- `np.random.permutation(n)`, modelled as a full Fisher-Yates shuffle of
`[0, n)` driven by the abstract seeded draw stream. -/
def npPermutation (draws : Nat → Nat) (n : Nat) : List Nat :=
  fySelect ((List.range n).map draws) (List.range n)

/-- Modelled from the spec: `get_permutations(bucket_counts)` (absent
`data_io.py`), spec section 4.4: per bucket, a seeded random permutation of
`[0, count)` and its inverse; a zero-count bucket uses count 1, producing the
trivial single-element sentinel permutation `[0]`. -/
def get_permutations (draws : Nat → Nat → Nat) (bucket_counts : List Nat) :
    List (List Nat) × List (List Nat) :=
  let ps := (List.range bucket_counts.length).map
    (fun b => npPermutation (draws b) (max (bucket_counts.getD b 0) 1))
  (ps, ps.map invPerm)

/-- One permuted array family: bucket `b` is left alone when the (source)
count is zero, otherwise gathered through the bucket's permutation. -/
def permuteArray [Inhabited γ] (ps : List (List Nat)) (counts : List Nat)
    (nb : Nat) (xs : List (List γ)) : List (List γ) :=
  (List.range nb).map (fun b =>
    if counts.getD b 0 = 0 then xs.getD b []
    else gather (ps.getD b []) (xs.getD b []) default)

/-- Modelled from the spec: `ParallelDataSet.permute(permutations)` (absent
`data_io.py`), spec section 4.3: applies the per-bucket index permutation to
every parallel array of that bucket, leaving empty buckets alone, preserving
cross-array sample alignment; returns a new dataset. -/
def ParallelDataSet.permute (ds : ParallelDataSet) (ps : List (List Nat)) :
    ParallelDataSet :=
  let counts := get_bucket_counts ds
  let nb := ds.source.length
  { source := permuteArray ps counts nb ds.source
  , target := permuteArray ps counts nb ds.target
  , prepended_source_length :=
      ds.prepended_source_length.map (fun pl => permuteArray ps counts nb pl)
  , alignment_matrix :=
      ds.alignment_matrix.map (fun al => permuteArray ps counts nb al) }

theorem npPermutation_perm (draws : Nat → Nat) (n : Nat) :
    List.Perm (npPermutation draws n) (List.range n) :=
  fySelect_perm _ _ (by simp)

theorem npPermutation_length (draws : Nat → Nat) (n : Nat) :
    (npPermutation draws n).length = n := by
  have := (npPermutation_perm draws n).length_eq
  simpa using this

theorem npPermutation_one (draws : Nat → Nat) : npPermutation draws 1 = [0] := by
  show fySelect ((List.range 1).map draws) (List.range 1) = [0]
  rw [show List.range 1 = [0] from rfl, List.map_cons, List.map_nil]
  rw [fySelect_cons _ _ _ (List.cons_ne_nil 0 [])]
  simp [fySelect_nil]

theorem invPerm_getD {p : List Nat} {n : Nat} (hperm : List.Perm p (List.range n))
    (i : Nat) (hi : i < n) : (invPerm p).getD i 0 = p.indexOf i := by
  have hlen : p.length = n := by simpa using hperm.length_eq
  rw [invPerm, getD_map_lt _ _ _ _ (by simp [hlen]; omega), List.getElem_range]

theorem perm_getD_invPerm {p : List Nat} {n : Nat} (hperm : List.Perm p (List.range n))
    (i : Nat) (hi : i < n) : p.getD ((invPerm p).getD i 0) 0 = i := by
  have hlen : p.length = n := by simpa using hperm.length_eq
  have hmem : i ∈ p := hperm.mem_iff.mpr (List.mem_range.mpr hi)
  have hidx : p.indexOf i < p.length := List.indexOf_lt_length.mpr hmem
  rw [invPerm_getD hperm i hi, List.getD_eq_getElem _ _ hidx, List.getElem_indexOf hidx]

/-- Gathering through a permutation and then through its inverse restores
the original array. -/
theorem gather_invPerm_gather [Inhabited γ] {p : List Nat} {n : Nat}
    (hperm : List.Perm p (List.range n)) (l : List γ) (hl : l.length = n) :
    gather (invPerm p) (gather p l default) default = l := by
  have hlen : p.length = n := by simpa using hperm.length_eq
  apply List.ext_getElem (by simp [invPerm, hlen, hl])
  intro i h1 h2
  have hi : i < n := by
    simpa [invPerm, hlen] using h1
  have h1i : i < (invPerm p).length := by
    simp [invPerm, hlen]
    omega
  rw [gather_getElem _ _ _ i h1i (by simpa using h1i)]
  have hinv : (invPerm p)[i] = (invPerm p).getD i 0 :=
    (List.getD_eq_getElem _ _ h1i).symm
  rw [hinv]
  have hidxlt : (invPerm p).getD i 0 < p.length := by
    have hmem : i ∈ p := hperm.mem_iff.mpr (List.mem_range.mpr hi)
    rw [invPerm_getD hperm i hi]
    exact List.indexOf_lt_length.mpr hmem
  rw [List.getD_eq_getElem _ _ (by simpa using hidxlt),
    gather_getElem _ _ _ _ hidxlt]
  have : p[(invPerm p).getD i 0] = p.getD ((invPerm p).getD i 0) 0 := by
    rw [List.getD_eq_getElem _ _ hidxlt]
  rw [this, perm_getD_invPerm hperm i hi, List.getD_eq_getElem _ _ (by omega)]

theorem ext_getD (l1 l2 : List γ) (d : γ) (hlen : l1.length = l2.length)
    (h : ∀ i, i < l1.length → l1.getD i d = l2.getD i d) : l1 = l2 := by
  apply List.ext_getElem hlen
  intro i h1 h2
  have h3 := h i h1
  rwa [List.getD_eq_getElem _ _ h1, List.getD_eq_getElem _ _ h2] at h3

theorem getD_map_length (l : List (List γ)) (i : Nat) (h : i < l.length) :
    (l.map List.length).getD i 0 = (l.getD i []).length := by
  rw [getD_map_lt List.length l i 0 h, List.getD_eq_getElem _ _ h]

theorem map_range_getD (xs : List γ) (d : γ) (nb : Nat) (h : xs.length = nb) :
    (List.range nb).map (fun b => xs.getD b d) = xs := by
  apply List.ext_getElem (by simp [h])
  intro i h1 h2
  rw [List.getElem_map, List.getElem_range, List.getD_eq_getElem _ _ h2]

@[simp] theorem permuteArray_length [Inhabited γ] (ps : List (List Nat))
    (cs : List Nat) (nb : Nat) (xs : List (List γ)) :
    (permuteArray ps cs nb xs).length = nb := by
  simp [permuteArray]

theorem permuteArray_getD [Inhabited γ] (ps : List (List Nat)) (cs : List Nat)
    (nb : Nat) (xs : List (List γ)) (b : Nat) (hb : b < nb) :
    (permuteArray ps cs nb xs).getD b []
      = if cs.getD b 0 = 0 then xs.getD b []
        else gather (ps.getD b []) (xs.getD b []) default := by
  rw [permuteArray, getD_map_lt _ _ _ _ (by simpa using hb), List.getElem_range]

theorem get_permutations_fst_getD (draws : Nat → Nat → Nat) (cs : List Nat)
    (b : Nat) (hb : b < cs.length) :
    (get_permutations draws cs).1.getD b []
      = npPermutation (draws b) (max (cs.getD b 0) 1) := by
  show ((List.range cs.length).map
    (fun b => npPermutation (draws b) (max (cs.getD b 0) 1))).getD b [] = _
  rw [getD_map_lt _ _ _ _ (by simpa using hb), List.getElem_range]

theorem get_permutations_snd_getD (draws : Nat → Nat → Nat) (cs : List Nat)
    (b : Nat) (hb : b < cs.length) :
    (get_permutations draws cs).2.getD b []
      = invPerm (npPermutation (draws b) (max (cs.getD b 0) 1)) := by
  show ((get_permutations draws cs).1.map invPerm).getD b [] = _
  have hlen : b < (get_permutations draws cs).1.length := by
    show b < ((List.range cs.length).map _).length
    simpa using hb
  rw [getD_map_lt _ _ _ _ hlen]
  congr 1
  rw [← List.getD_eq_getElem _ [] hlen, get_permutations_fst_getD draws cs b hb]

theorem get_permutations_fst_length (draws : Nat → Nat → Nat) (cs : List Nat) :
    (get_permutations draws cs).1.length = cs.length := by
  show ((List.range cs.length).map _).length = _
  simp

theorem get_permutations_snd_length (draws : Nat → Nat → Nat) (cs : List Nat) :
    (get_permutations draws cs).2.length = cs.length := by
  show ((get_permutations draws cs).1.map invPerm).length = _
  rw [List.length_map, get_permutations_fst_length]

/-- Permuting an array family through fresh bucket permutations and then
through their inverses restores the family. -/
theorem permuteArray_roundtrip [Inhabited γ] (draws : Nat → Nat → Nat) (cs : List Nat)
    (xs : List (List γ)) (hxs : xs.length = cs.length)
    (hlens : ∀ b, b < cs.length → (xs.getD b []).length = cs.getD b 0) :
    permuteArray (get_permutations draws cs).2 cs cs.length
      (permuteArray (get_permutations draws cs).1 cs cs.length xs) = xs := by
  apply List.ext_getElem (by simp [hxs])
  intro b h1 h2
  have hb : b < cs.length := by simpa using h1
  have hbx : b < xs.length := by omega
  rw [← List.getD_eq_getElem (permuteArray _ _ _ _) [] h1,
    permuteArray_getD _ _ _ _ b hb]
  rw [show (permuteArray (get_permutations draws cs).1 cs cs.length xs).getD b []
        = if cs.getD b 0 = 0 then xs.getD b []
          else gather ((get_permutations draws cs).1.getD b []) (xs.getD b []) default
      from permuteArray_getD _ _ _ _ b hb]
  by_cases hzero : cs.getD b 0 = 0
  · rw [if_pos hzero, if_pos hzero, List.getD_eq_getElem _ _ hbx]
  · rw [if_neg hzero, if_neg hzero,
      get_permutations_fst_getD draws cs b hb, get_permutations_snd_getD draws cs b hb]
    have hmax : max (cs.getD b 0) 1 = cs.getD b 0 := by omega
    rw [hmax]
    have hperm := npPermutation_perm (draws b) (cs.getD b 0)
    rw [gather_invPerm_gather hperm (xs.getD b []) (hlens b hb),
      List.getD_eq_getElem _ _ hbx]

/-- `permute` preserves the per-bucket sample counts when applied with
permutations generated from those counts. -/
theorem get_bucket_counts_permute (draws : Nat → Nat → Nat) (ds : ParallelDataSet) :
    get_bucket_counts
        (ds.permute (get_permutations draws (get_bucket_counts ds)).1)
      = get_bucket_counts ds := by
  set cs := get_bucket_counts ds with hcs
  have hcslen : cs.length = ds.source.length := by
    rw [hcs, get_bucket_counts, List.length_map]
  apply ext_getD _ _ 0
  · show ((permuteArray (get_permutations draws cs).1 cs ds.source.length
      ds.source).map List.length).length = cs.length
    simp [hcslen]
  intro b hb1
  have hb : b < ds.source.length := by
    revert hb1
    show b < ((permuteArray (get_permutations draws cs).1 cs ds.source.length
      ds.source).map List.length).length → _
    simp
  show ((permuteArray (get_permutations draws cs).1 cs ds.source.length
      ds.source).map List.length).getD b 0 = cs.getD b 0
  rw [getD_map_length _ b (by simpa using hb)]
  rw [permuteArray_getD _ _ _ _ b hb]
  have hcsb : cs.getD b 0 = (ds.source.getD b []).length := by
    rw [hcs, get_bucket_counts, getD_map_lt _ _ _ _ hb, List.getD_eq_getElem _ _ hb]
  by_cases hzero : cs.getD b 0 = 0
  · rw [if_pos hzero, ← hcsb]
  · rw [if_neg hzero, gather_length,
      get_permutations_fst_getD draws cs b (by omega), npPermutation_length]
    omega

theorem permuteArray_roundtrip' [Inhabited γ] (draws : Nat → Nat → Nat)
    (cs c1 c2 : List Nat) (n1 n2 : Nat) (xs : List (List γ))
    (hc1 : c1 = cs) (hc2 : c2 = cs) (hn1 : n1 = cs.length) (hn2 : n2 = cs.length)
    (hxs : xs.length = cs.length)
    (hlens : ∀ b, b < cs.length → (xs.getD b []).length = cs.getD b 0) :
    permuteArray (get_permutations draws cs).2 c2 n2
      (permuteArray (get_permutations draws cs).1 c1 n1 xs) = xs := by
  rw [hc1, hc2, hn1, hn2]
  exact permuteArray_roundtrip draws cs xs hxs hlens

theorem permute_source (x : ParallelDataSet) (P : List (List Nat)) :
    (x.permute P).source
      = permuteArray P (get_bucket_counts x) x.source.length x.source := rfl

theorem permute_target (x : ParallelDataSet) (P : List (List Nat)) :
    (x.permute P).target
      = permuteArray P (get_bucket_counts x) x.source.length x.target := rfl

theorem permute_prep (x : ParallelDataSet) (P : List (List Nat)) :
    (x.permute P).prepended_source_length
      = x.prepended_source_length.map
          (fun pl => permuteArray P (get_bucket_counts x) x.source.length pl) := rfl

theorem permute_align (x : ParallelDataSet) (P : List (List Nat)) :
    (x.permute P).alignment_matrix
      = x.alignment_matrix.map
          (fun al => permuteArray P (get_bucket_counts x) x.source.length al) := rfl

theorem pds_ext {a b : ParallelDataSet} (hs : a.source = b.source)
    (ht : a.target = b.target)
    (hp : a.prepended_source_length = b.prepended_source_length)
    (ha : a.alignment_matrix = b.alignment_matrix) : a = b := by
  cases a
  cases b
  simp_all

/-- The dataset-level round-trip: permuting with fresh per-bucket
permutations and then with their inverses restores the dataset, for every
well-formed dataset, empty buckets included. -/
theorem pds_permute_roundtrip (draws : Nat → Nat → Nat) (ds : ParallelDataSet)
    (h : pdsWf ds = true) :
    (ds.permute (get_permutations draws (get_bucket_counts ds)).1).permute
      (get_permutations draws (get_bucket_counts ds)).2 = ds := by
  have hwf := h
  rw [pdsWf, Bool.and_eq_true, Bool.and_eq_true] at hwf
  obtain ⟨⟨htgt, hprep⟩, halign⟩ := hwf
  obtain ⟨htlen, htb⟩ := bucketLensOk_spec htgt
  have hcslen : (get_bucket_counts ds).length = ds.source.length := by
    rw [get_bucket_counts, List.length_map]
  have hcsb : ∀ b, b < (get_bucket_counts ds).length →
      (get_bucket_counts ds).getD b 0 = (ds.source.getD b []).length := by
    intro b hb
    rw [get_bucket_counts, getD_map_lt _ _ _ _ (by omega),
      List.getD_eq_getElem _ _ (by omega)]
  have hcounts := get_bucket_counts_permute draws ds
  apply pds_ext
  · rw [permute_source, permute_source, hcounts]
    exact permuteArray_roundtrip' draws (get_bucket_counts ds) _ _ _ _ ds.source rfl rfl
      hcslen.symm (by rw [permuteArray_length]; omega) hcslen.symm
      (fun b hb => (hcsb b hb).symm)
  · rw [permute_target, permute_target, permute_source, hcounts]
    exact permuteArray_roundtrip' draws (get_bucket_counts ds) _ _ _ _ ds.target rfl rfl
      hcslen.symm (by rw [permuteArray_length]; omega) (by omega)
      (fun b hb => by rw [htb b (by omega), ← hcsb b hb])
  · rw [permute_prep, permute_prep, permute_source, hcounts, Option.map_map]
    cases hp : ds.prepended_source_length with
    | none => rfl
    | some pl =>
      rw [hp] at hprep
      obtain ⟨hplen, hpb⟩ := bucketLensOk_spec hprep
      simp only [Option.map_some', Function.comp_apply]
      congr 1
      exact permuteArray_roundtrip' draws (get_bucket_counts ds) _ _ _ _ pl rfl rfl
        hcslen.symm (by rw [permuteArray_length]; omega) (by omega)
        (fun b hb => by rw [hpb b (by omega), ← hcsb b hb])
  · rw [permute_align, permute_align, permute_source, hcounts, Option.map_map]
    cases ha : ds.alignment_matrix with
    | none => rfl
    | some al =>
      rw [ha] at halign
      obtain ⟨hallen, hab⟩ := bucketLensOk_spec halign
      simp only [Option.map_some', Function.comp_apply]
      congr 1
      exact permuteArray_roundtrip' draws (get_bucket_counts ds) _ _ _ _ al rfl rfl
        hcslen.symm (by rw [permuteArray_length]; omega) (by omega)
        (fun b hb => by rw [hab b (by omega), ← hcsb b hb])

/-- C3: `get_permutations` returns, for each bucket, a permutation of
`[0, count)` together with its inverse (composing them index-wise is the
identity); a zero-count bucket yields the trivial single-element sentinel
permutation `[0]`; and permuting the dataset with the permutations and then
with the inverses reproduces the original dataset exactly in every parallel
array and every bucket, empty buckets included. -/
theorem c3_get_permutations_roundtrip (draws : Nat → Nat → Nat) (ds : ParallelDataSet)
    (h : pdsWf ds = true) :
    (get_permutations draws (get_bucket_counts ds)).1.length
        = (get_bucket_counts ds).length ∧
    (get_permutations draws (get_bucket_counts ds)).2.length
        = (get_bucket_counts ds).length ∧
    (∀ b, b < (get_bucket_counts ds).length →
      (if (get_bucket_counts ds).getD b 0 = 0
       then (get_permutations draws (get_bucket_counts ds)).1.getD b [] = [0]
       else List.Perm ((get_permutations draws (get_bucket_counts ds)).1.getD b [])
              (List.range ((get_bucket_counts ds).getD b 0))) ∧
      (∀ i, i < max ((get_bucket_counts ds).getD b 0) 1 →
        ((get_permutations draws (get_bucket_counts ds)).1.getD b []).getD
          (((get_permutations draws (get_bucket_counts ds)).2.getD b []).getD i 0) 0
          = i)) ∧
    (ds.permute (get_permutations draws (get_bucket_counts ds)).1).permute
      (get_permutations draws (get_bucket_counts ds)).2 = ds := by
  refine ⟨get_permutations_fst_length draws _, get_permutations_snd_length draws _,
    ?_, pds_permute_roundtrip draws ds h⟩
  intro b hb
  rw [get_permutations_fst_getD draws _ b hb, get_permutations_snd_getD draws _ b hb]
  constructor
  · by_cases hzero : (get_bucket_counts ds).getD b 0 = 0
    · rw [if_pos hzero, hzero]
      exact npPermutation_one (draws b)
    · rw [if_neg hzero, show max ((get_bucket_counts ds).getD b 0) 1
          = (get_bucket_counts ds).getD b 0 from by omega]
      exact npPermutation_perm (draws b) _
  · intro i hi
    exact perm_getD_invPerm (npPermutation_perm (draws b) _) i hi

/-- Witness for C3 at a concrete dataset: one singleton bucket and one empty
bucket, with both optional arrays present. -/
theorem c3_get_permutations_roundtrip_witness :
    pdsWf ⟨[[[[7]]], []], [[[[9]]], []], some [[4], []],
      some [[⟨[0], [1], 1⟩], []]⟩ = true ∧
    ((get_permutations (fun _ _ => 0) (get_bucket_counts
        ⟨[[[[7]]], []], [[[[9]]], []], some [[4], []],
          some [[⟨[0], [1], 1⟩], []]⟩)).1.length
      = (get_bucket_counts ⟨[[[[7]]], []], [[[[9]]], []], some [[4], []],
          some [[⟨[0], [1], 1⟩], []]⟩).length ∧
    (get_permutations (fun _ _ => 0) (get_bucket_counts
        ⟨[[[[7]]], []], [[[[9]]], []], some [[4], []],
          some [[⟨[0], [1], 1⟩], []]⟩)).2.length
      = (get_bucket_counts ⟨[[[[7]]], []], [[[[9]]], []], some [[4], []],
          some [[⟨[0], [1], 1⟩], []]⟩).length ∧
    (∀ b, b < (get_bucket_counts ⟨[[[[7]]], []], [[[[9]]], []], some [[4], []],
          some [[⟨[0], [1], 1⟩], []]⟩).length →
      (if (get_bucket_counts ⟨[[[[7]]], []], [[[[9]]], []], some [[4], []],
            some [[⟨[0], [1], 1⟩], []]⟩).getD b 0 = 0
       then (get_permutations (fun _ _ => 0) (get_bucket_counts
            ⟨[[[[7]]], []], [[[[9]]], []], some [[4], []],
              some [[⟨[0], [1], 1⟩], []]⟩)).1.getD b [] = [0]
       else List.Perm ((get_permutations (fun _ _ => 0) (get_bucket_counts
            ⟨[[[[7]]], []], [[[[9]]], []], some [[4], []],
              some [[⟨[0], [1], 1⟩], []]⟩)).1.getD b [])
              (List.range ((get_bucket_counts ⟨[[[[7]]], []], [[[[9]]], []],
                some [[4], []], some [[⟨[0], [1], 1⟩], []]⟩).getD b 0))) ∧
      (∀ i, i < max ((get_bucket_counts ⟨[[[[7]]], []], [[[[9]]], []],
            some [[4], []], some [[⟨[0], [1], 1⟩], []]⟩).getD b 0) 1 →
        ((get_permutations (fun _ _ => 0) (get_bucket_counts
            ⟨[[[[7]]], []], [[[[9]]], []], some [[4], []],
              some [[⟨[0], [1], 1⟩], []]⟩)).1.getD b []).getD
          (((get_permutations (fun _ _ => 0) (get_bucket_counts
            ⟨[[[[7]]], []], [[[[9]]], []], some [[4], []],
              some [[⟨[0], [1], 1⟩], []]⟩)).2.getD b []).getD i 0) 0
          = i)) ∧
    ((⟨[[[[7]]], []], [[[[9]]], []], some [[4], []],
        some [[⟨[0], [1], 1⟩], []]⟩ : ParallelDataSet).permute
      (get_permutations (fun _ _ => 0) (get_bucket_counts
        ⟨[[[[7]]], []], [[[[9]]], []], some [[4], []],
          some [[⟨[0], [1], 1⟩], []]⟩)).1).permute
      (get_permutations (fun _ _ => 0) (get_bucket_counts
        ⟨[[[[7]]], []], [[[[9]]], []], some [[4], []],
          some [[⟨[0], [1], 1⟩], []]⟩)).2
      = ⟨[[[[7]]], []], [[[[9]]], []], some [[4], []],
          some [[⟨[0], [1], 1⟩], []]⟩) :=
  ⟨by decide, c3_get_permutations_roundtrip (fun _ _ => 0) _ (by decide)⟩

/-! ## `data_io`: fill-up (C5) -/

/-- The extra sample indices drawn for one bucket by `fill_up`: empty when
the count is already a multiple of the batch size (in particular for empty
buckets), otherwise `bs - n % bs` indices drawn with replacement (mod `n`)
from the seeded stream. -/
def fillUpExtra (draws : Nat → Nat → Nat) (counts : List Nat) (bbs : List Nat)
    (b : Nat) : List Nat :=
  let n := counts.getD b 0
  let bs := bbs.getD b 1
  if n % bs = 0 then []
  else (List.range (bs - n % bs)).map (fun i => draws b i % n)

/-- Modelled from the spec: `ParallelDataSet.fill_up(bucket_batch_sizes, seed)`
(absent `data_io.py`), spec section 4.3: for each bucket whose sample count
is not an exact multiple of its batch size, appends samples drawn with
replacement (deterministically from the seeded stream) from the existing
bucket until the count is a multiple; buckets already at a multiple —
including zero-count buckets — are unchanged; the same drawn indices are
applied to every parallel array, preserving cross-array sample alignment. -/
def fill_up (draws : Nat → Nat → Nat) (ds : ParallelDataSet) (bbs : List Nat) :
    ParallelDataSet :=
  let counts := get_bucket_counts ds
  let nb := ds.source.length
  { source := (List.range nb).map (fun b =>
      ds.source.getD b []
        ++ gather (fillUpExtra draws counts bbs b) (ds.source.getD b []) default)
  , target := (List.range nb).map (fun b =>
      ds.target.getD b []
        ++ gather (fillUpExtra draws counts bbs b) (ds.target.getD b []) default)
  , prepended_source_length := ds.prepended_source_length.map (fun pl =>
      (List.range nb).map (fun b =>
        pl.getD b []
          ++ gather (fillUpExtra draws counts bbs b) (pl.getD b []) default))
  , alignment_matrix := ds.alignment_matrix.map (fun al =>
      (List.range nb).map (fun b =>
        al.getD b []
          ++ gather (fillUpExtra draws counts bbs b) (al.getD b []) default)) }

/-- C5: `fill_up` leaves every bucket whose count is already a multiple of
its batch size unchanged in all parallel arrays (idempotence on such buckets;
in particular a zero-count bucket stays zero-length), and for every other
bucket appends, to all parallel arrays consistently, samples drawn from one
common list of existing in-bucket indices, until the count is a multiple of
the batch size. -/
theorem c5_fill_up (draws : Nat → Nat → Nat) (ds : ParallelDataSet) (bbs : List Nat)
    (h : pdsWf ds = true) (hbs : ∀ x ∈ bbs, 1 ≤ x) :
    ∀ b, b < ds.source.length →
      ((ds.source.getD b []).length % (bbs.getD b 1) = 0 →
        ((fill_up draws ds bbs).source.getD b [] = ds.source.getD b [] ∧
         (fill_up draws ds bbs).target.getD b [] = ds.target.getD b [] ∧
         (∀ pl, ds.prepended_source_length = some pl →
            ∃ fl, (fill_up draws ds bbs).prepended_source_length = some fl ∧
              fl.getD b [] = pl.getD b []) ∧
         (∀ al, ds.alignment_matrix = some al →
            ∃ fl, (fill_up draws ds bbs).alignment_matrix = some fl ∧
              fl.getD b [] = al.getD b []))) ∧
      ((ds.source.getD b []).length % (bbs.getD b 1) ≠ 0 →
        ∃ extra : List Nat,
          0 < extra.length ∧
          (∀ i ∈ extra, i < (ds.source.getD b []).length) ∧
          ((ds.source.getD b []).length + extra.length) % (bbs.getD b 1) = 0 ∧
          (fill_up draws ds bbs).source.getD b []
            = ds.source.getD b [] ++ gather extra (ds.source.getD b []) default ∧
          (fill_up draws ds bbs).target.getD b []
            = ds.target.getD b [] ++ gather extra (ds.target.getD b []) default ∧
          (∀ pl, ds.prepended_source_length = some pl →
            ∃ fl, (fill_up draws ds bbs).prepended_source_length = some fl ∧
              fl.getD b [] = pl.getD b [] ++ gather extra (pl.getD b []) default) ∧
          (∀ al, ds.alignment_matrix = some al →
            ∃ fl, (fill_up draws ds bbs).alignment_matrix = some fl ∧
              fl.getD b [] = al.getD b [] ++ gather extra (al.getD b []) default)) := by
  intro b hb
  have hcsb : (get_bucket_counts ds).getD b 0 = (ds.source.getD b []).length := by
    rw [get_bucket_counts, getD_map_lt _ _ _ _ hb, List.getD_eq_getElem _ _ hb]
  have hsrc : (fill_up draws ds bbs).source.getD b []
      = ds.source.getD b []
        ++ gather (fillUpExtra draws (get_bucket_counts ds) bbs b)
            (ds.source.getD b []) default := by
    show ((List.range ds.source.length).map _).getD b [] = _
    rw [getD_map_lt _ _ _ _ (by simpa using hb), List.getElem_range]
  have htgt : (fill_up draws ds bbs).target.getD b []
      = ds.target.getD b []
        ++ gather (fillUpExtra draws (get_bucket_counts ds) bbs b)
            (ds.target.getD b []) default := by
    show ((List.range ds.source.length).map _).getD b [] = _
    rw [getD_map_lt _ _ _ _ (by simpa using hb), List.getElem_range]
  constructor
  · intro hmod
    have hextra : fillUpExtra draws (get_bucket_counts ds) bbs b = [] := by
      rw [fillUpExtra]
      simp only [hcsb]
      rw [if_pos hmod]
    refine ⟨?_, ?_, ?_, ?_⟩
    · rw [hsrc, hextra]
      simp [gather]
    · rw [htgt, hextra]
      simp [gather]
    · intro pl hpl
      refine ⟨_, by rw [fill_up, hpl]; rfl, ?_⟩
      show ((List.range ds.source.length).map _).getD b [] = _
      rw [getD_map_lt _ _ _ _ (by simpa using hb), List.getElem_range, hextra]
      simp [gather]
    · intro al hal
      refine ⟨_, by rw [fill_up, hal]; rfl, ?_⟩
      show ((List.range ds.source.length).map _).getD b [] = _
      rw [getD_map_lt _ _ _ _ (by simpa using hb), List.getElem_range, hextra]
      simp [gather]
  · intro hmod
    set n := (ds.source.getD b []).length with hn
    set bs := bbs.getD b 1 with hbsdef
    have hbs1 : 1 ≤ bs := by
      by_cases hblt : b < bbs.length
      · exact hbs _ (by rw [hbsdef, List.getD_eq_getElem _ _ hblt]; exact List.getElem_mem hblt)
      · rw [hbsdef, List.getD_eq_default _ _ (by omega)]
    have hnpos : 0 < n := by
      by_contra hcon
      have : n = 0 := by omega
      rw [this] at hmod
      exact hmod (Nat.zero_mod bs)
    have hrlt : n % bs < bs := Nat.mod_lt _ (by omega)
    have hextra : fillUpExtra draws (get_bucket_counts ds) bbs b
        = (List.range (bs - n % bs)).map (fun i => draws b i % n) := by
      rw [fillUpExtra]
      simp only [hcsb, ← hn, ← hbsdef]
      rw [if_neg hmod]
    refine ⟨(List.range (bs - n % bs)).map (fun i => draws b i % n), ?_, ?_, ?_, ?_, ?_, ?_, ?_⟩
    · have : 0 < bs - n % bs := by omega
      simpa using this
    · intro i hi
      rcases List.mem_map.mp hi with ⟨j, _, hj⟩
      rw [← hj]
      exact Nat.mod_lt _ hnpos
    · rw [List.length_map, List.length_range, Nat.add_mod,
        Nat.mod_eq_of_lt (show bs - n % bs < bs from by omega),
        show n % bs + (bs - n % bs) = bs from by omega, Nat.mod_self]
    · rw [hsrc, hextra]
    · rw [htgt, hextra]
    · intro pl hpl
      refine ⟨_, by rw [fill_up, hpl]; rfl, ?_⟩
      show ((List.range ds.source.length).map _).getD b [] = _
      rw [getD_map_lt _ _ _ _ (by simpa using hb), List.getElem_range, hextra]
    · intro al hal
      refine ⟨_, by rw [fill_up, hal]; rfl, ?_⟩
      show ((List.range ds.source.length).map _).getD b [] = _
      rw [getD_map_lt _ _ _ _ (by simpa using hb), List.getElem_range, hextra]

/-- A concrete dataset for the C5 witness: bucket 0 holds 3 samples (batch
size 2, needs one fill-up sample), bucket 1 is empty, bucket 2 holds 2
samples (already a multiple of its batch size). -/
def fillUpDemo : ParallelDataSet :=
  ⟨[[[[1]], [[2]], [[3]]], [], [[[4]], [[5]]]],
   [[[[6]], [[7]], [[8]]], [], [[[9]], [[10]]]], none, none⟩

/-- Witness for C5 at the concrete dataset `fillUpDemo` with batch sizes
`[2, 2, 2]`. -/
theorem c5_fill_up_witness :
    pdsWf fillUpDemo = true ∧ (∀ x ∈ [2, 2, 2], 1 ≤ x) ∧
    (∀ b, b < fillUpDemo.source.length →
      ((fillUpDemo.source.getD b []).length % ([2, 2, 2].getD b 1) = 0 →
        ((fill_up (fun _ _ => 0) fillUpDemo [2, 2, 2]).source.getD b []
            = fillUpDemo.source.getD b [] ∧
         (fill_up (fun _ _ => 0) fillUpDemo [2, 2, 2]).target.getD b []
            = fillUpDemo.target.getD b [] ∧
         (∀ pl, fillUpDemo.prepended_source_length = some pl →
            ∃ fl, (fill_up (fun _ _ => 0) fillUpDemo
                [2, 2, 2]).prepended_source_length = some fl ∧
              fl.getD b [] = pl.getD b []) ∧
         (∀ al, fillUpDemo.alignment_matrix = some al →
            ∃ fl, (fill_up (fun _ _ => 0) fillUpDemo
                [2, 2, 2]).alignment_matrix = some fl ∧
              fl.getD b [] = al.getD b []))) ∧
      ((fillUpDemo.source.getD b []).length % ([2, 2, 2].getD b 1) ≠ 0 →
        ∃ extra : List Nat,
          0 < extra.length ∧
          (∀ i ∈ extra, i < (fillUpDemo.source.getD b []).length) ∧
          ((fillUpDemo.source.getD b []).length + extra.length)
              % ([2, 2, 2].getD b 1) = 0 ∧
          (fill_up (fun _ _ => 0) fillUpDemo [2, 2, 2]).source.getD b []
            = fillUpDemo.source.getD b []
              ++ gather extra (fillUpDemo.source.getD b []) default ∧
          (fill_up (fun _ _ => 0) fillUpDemo [2, 2, 2]).target.getD b []
            = fillUpDemo.target.getD b []
              ++ gather extra (fillUpDemo.target.getD b []) default ∧
          (∀ pl, fillUpDemo.prepended_source_length = some pl →
            ∃ fl, (fill_up (fun _ _ => 0) fillUpDemo
                [2, 2, 2]).prepended_source_length = some fl ∧
              fl.getD b [] = pl.getD b [] ++ gather extra (pl.getD b []) default) ∧
          (∀ al, fillUpDemo.alignment_matrix = some al →
            ∃ fl, (fill_up (fun _ _ => 0) fillUpDemo
                [2, 2, 2]).alignment_matrix = some fl ∧
              fl.getD b [] = al.getD b [] ++ gather extra (al.getD b []) default))) :=
  ⟨by decide, by decide,
    c5_fill_up (fun _ _ => 0) fillUpDemo [2, 2, 2] (by decide) (by decide)⟩

/-! ## `data_io`: shard serialization (C2)

Modelled from the spec, sections 4.3 and 6 (with `data_io.py` absent): the
shard file is a single flat container starting with a format marker
(legacy = 0, current = 1), then — in the current format — presence flags for
the two optional sections, the bucket count, and per bucket in
bucket-definition order: sample count, source array, target array, optional
prepended-length array, optional sparse alignment rows (column indices,
values, flat width per sample row).  The container is embedded as a list of
integers; rationals are stored as numerator/denominator pairs. -/

def encNat (n : Nat) : List Int := [(n : Int)]

def encInt (i : Int) : List Int := [i]

def encListOf (enc : γ → List Int) (l : List γ) : List Int :=
  (l.length : Int) :: (l.map enc).flatten

def encRat (q : ℚ) : List Int := [q.num, (q.den : Int)]

def encTokList : List Int → List Int := encListOf encInt

def encSample : Sample → List Int := encListOf encTokList

def encSparseRow (r : SparseRow) : List Int :=
  encNat r.width ++ encListOf encNat r.cols ++ encListOf encRat r.vals

def decNat : List Int → Option (Nat × List Int)
  | [] => none
  | x :: rest => if x < 0 then none else some (x.toNat, rest)

def decInt : List Int → Option (Int × List Int)
  | [] => none
  | x :: rest => some (x, rest)

def decRat : List Int → Option (ℚ × List Int)
  | a :: b :: rest => if b < 0 then none else some (mkRat a b.toNat, rest)
  | _ => none

def decCount (dec : List Int → Option (γ × List Int)) :
    Nat → List Int → Option (List γ × List Int)
  | 0, s => some ([], s)
  | n + 1, s =>
    match dec s with
    | none => none
    | some (x, s1) =>
      match decCount dec n s1 with
      | none => none
      | some (xs, s2) => some (x :: xs, s2)

def decListOf (dec : List Int → Option (γ × List Int)) (s : List Int) :
    Option (List γ × List Int) :=
  match decNat s with
  | none => none
  | some (n, s1) => decCount dec n s1

def decTokList : List Int → Option (List Int × List Int) := decListOf decInt

def decSample : List Int → Option (Sample × List Int) := decListOf decTokList

def decSparseRow (s : List Int) : Option (SparseRow × List Int) :=
  match decNat s with
  | none => none
  | some (w, s1) =>
    match decListOf decNat s1 with
    | none => none
    | some (cols, s2) =>
      match decListOf decRat s2 with
      | none => none
      | some (vals, s3) => some (⟨cols, vals, w⟩, s3)

/-- One bucket record: sample count, source array, target array, then the
optional sections when their presence flags are set. -/
def encBucket (hp ha : Bool) (t : List Sample × List Sample × List Nat × List SparseRow) :
    List Int :=
  encNat t.1.length ++ encListOf encSample t.1 ++ encListOf encSample t.2.1
    ++ (if hp then encListOf encNat t.2.2.1 else [])
    ++ (if ha then encListOf encSparseRow t.2.2.2 else [])

def decBucket (hp ha : Bool) (s : List Int) :
    Option ((List Sample × List Sample × List Nat × List SparseRow) × List Int) :=
  match decNat s with
  | none => none
  | some (_, s0) =>
    match decListOf decSample s0 with
    | none => none
    | some (src, s1) =>
      match decListOf decSample s1 with
      | none => none
      | some (tgt, s2) =>
        match (if hp then decListOf decNat s2 else some ([], s2)) with
        | none => none
        | some (pl, s3) =>
          match (if ha then decListOf decSparseRow s3 else some ([], s3)) with
          | none => none
          | some (al, s4) => some ((src, tgt, pl, al), s4)

/-- The per-bucket tuples of a dataset, in bucket-definition order. -/
def bucketsOf (ds : ParallelDataSet) :
    List (List Sample × List Sample × List Nat × List SparseRow) :=
  (List.range ds.source.length).map (fun b =>
    (ds.source.getD b [], ds.target.getD b [],
     (ds.prepended_source_length.getD []).getD b [],
     (ds.alignment_matrix.getD []).getD b []))

/-- Modelled from the spec: `ParallelDataSet.save(fname, use_legacy_format)`
(absent `data_io.py`), spec sections 4.3 and 6: the current format writes the
format marker 1, presence flags for the optional sections, and the bucket
records; the legacy format writes marker 0 and only source and target. -/
def ParallelDataSet.save (ds : ParallelDataSet) (use_legacy_format : Bool) :
    List Int :=
  if use_legacy_format then
    0 :: ((ds.source.length : Int)
      :: ((bucketsOf ds).map (encBucket false false)).flatten)
  else
    1 :: (if ds.prepended_source_length.isSome then (1 : Int) else 0)
      :: (if ds.alignment_matrix.isSome then (1 : Int) else 0)
      :: ((ds.source.length : Int)
        :: ((bucketsOf ds).map
            (encBucket ds.prepended_source_length.isSome
              ds.alignment_matrix.isSome)).flatten)

/-- Modelled from the spec: `ParallelDataSet.load(path)` (absent
`data_io.py`): auto-detects the format from the marker; the legacy format
reconstructs only source and target (optional sections absent), the current
format reconstructs everything, preserving the exact sparse structure of the
alignment rows. -/
def pdsLoadLegacy (s0 : List Int) : Option ParallelDataSet :=
  match decListOf (decBucket false false) s0 with
  | none => none
  | some (ts, _) =>
    some ⟨ts.map (fun t => t.1), ts.map (fun t => t.2.1), none, none⟩

def pdsLoadCurrent (s0 : List Int) : Option ParallelDataSet :=
  match s0 with
  | hp :: ha :: s1 =>
    if hp = 0 ∨ hp = 1 then
      if ha = 0 ∨ ha = 1 then
        match decListOf (decBucket (hp = 1) (ha = 1)) s1 with
        | none => none
        | some (ts, _) =>
          some ⟨ts.map (fun t => t.1), ts.map (fun t => t.2.1),
            (if hp = 1 then some (ts.map (fun t => t.2.2.1)) else none),
            (if ha = 1 then some (ts.map (fun t => t.2.2.2)) else none)⟩
      else none
    else none
  | _ => none

def ParallelDataSet.load (s : List Int) : Option ParallelDataSet :=
  match s with
  | [] => none
  | m :: s0 =>
    if m = 0 then pdsLoadLegacy s0
    else if m = 1 then pdsLoadCurrent s0
    else none

theorem decNat_enc (n : Nat) (r : List Int) : decNat (encNat n ++ r) = some (n, r) := by
  show decNat ((n : Int) :: r) = some (n, r)
  simp only [decNat]
  rw [if_neg (by omega)]
  simp

theorem decInt_enc (i : Int) (r : List Int) : decInt (encInt i ++ r) = some (i, r) := rfl

theorem decRat_enc (q : ℚ) (r : List Int) : decRat (encRat q ++ r) = some (q, r) := by
  show decRat (q.num :: (q.den : Int) :: r) = some (q, r)
  simp only [decRat]
  rw [if_neg (by omega)]
  simp [Rat.mkRat_self]

theorem decCount_encMap (dec : List Int → Option (γ × List Int)) (enc : γ → List Int)
    (f : γ → γ) :
    ∀ (l : List γ), (∀ x ∈ l, ∀ r, dec (enc x ++ r) = some (f x, r)) →
      ∀ r, decCount dec l.length ((l.map enc).flatten ++ r) = some (l.map f, r) := by
  intro l
  induction l with
  | nil =>
    intro _ r
    simp [decCount]
  | cons a tl ih =>
    intro hdec r
    simp only [List.map_cons, List.flatten_cons, List.length_cons, List.append_assoc]
    simp only [decCount]
    rw [hdec a (List.mem_cons_self _ _)]
    dsimp only
    rw [ih (fun x hx => hdec x (List.mem_cons_of_mem _ hx)) r]

theorem decListOf_encMap (dec : List Int → Option (γ × List Int)) (enc : γ → List Int)
    (f : γ → γ) (l : List γ)
    (hdec : ∀ x ∈ l, ∀ r, dec (enc x ++ r) = some (f x, r)) (r : List Int) :
    decListOf dec (encListOf enc l ++ r) = some (l.map f, r) := by
  show decListOf dec ((l.length : Int) :: ((l.map enc).flatten ++ r)) = some (l.map f, r)
  simp only [decListOf]
  have hn := decNat_enc l.length ((l.map enc).flatten ++ r)
  rw [show encNat l.length ++ ((l.map enc).flatten ++ r)
        = (l.length : Int) :: ((l.map enc).flatten ++ r) from rfl] at hn
  rw [hn]
  exact decCount_encMap dec enc f l hdec r

theorem decListOf_enc (dec : List Int → Option (γ × List Int)) (enc : γ → List Int)
    (l : List γ) (hdec : ∀ x ∈ l, ∀ r, dec (enc x ++ r) = some (x, r)) (r : List Int) :
    decListOf dec (encListOf enc l ++ r) = some (l, r) := by
  have := decListOf_encMap dec enc id l (by simpa using hdec) r
  simpa using this

theorem decTokList_enc (tl : List Int) (r : List Int) :
    decTokList (encTokList tl ++ r) = some (tl, r) :=
  decListOf_enc decInt encInt tl (fun x _ r => decInt_enc x r) r

theorem decSample_enc (sm : Sample) (r : List Int) :
    decSample (encSample sm ++ r) = some (sm, r) :=
  decListOf_enc decTokList encTokList sm (fun x _ r => decTokList_enc x r) r

theorem decSparseRow_enc (sr : SparseRow) (r : List Int) :
    decSparseRow (encSparseRow sr ++ r) = some (sr, r) := by
  show decSparseRow (encNat sr.width
    ++ (encListOf encNat sr.cols ++ encListOf encRat sr.vals) ++ r) = some (sr, r)
  simp only [decSparseRow, List.append_assoc]
  rw [decNat_enc sr.width (encListOf encNat sr.cols ++ (encListOf encRat sr.vals ++ r))]
  dsimp only
  rw [decListOf_enc decNat encNat sr.cols (fun x _ r => decNat_enc x r)]
  dsimp only
  rw [decListOf_enc decRat encRat sr.vals (fun x _ r => decRat_enc x r)]

theorem decBucket_enc (hp ha : Bool)
    (t : List Sample × List Sample × List Nat × List SparseRow) (r : List Int) :
    decBucket hp ha (encBucket hp ha t ++ r)
      = some ((t.1, t.2.1, (if hp then t.2.2.1 else []),
               (if ha then t.2.2.2 else [])), r) := by
  show decBucket hp ha (encNat t.1.length
    ++ encListOf encSample t.1 ++ encListOf encSample t.2.1
    ++ (if hp then encListOf encNat t.2.2.1 else [])
    ++ (if ha then encListOf encSparseRow t.2.2.2 else []) ++ r) = _
  simp only [decBucket, List.append_assoc]
  rw [decNat_enc]
  dsimp only
  rw [decListOf_enc decSample encSample t.1 (fun x _ r => decSample_enc x r)]
  dsimp only
  rw [decListOf_enc decSample encSample t.2.1 (fun x _ r => decSample_enc x r)]
  dsimp only
  cases hp with
  | true =>
    simp only [if_true]
    rw [decListOf_enc decNat encNat t.2.2.1 (fun x _ r => decNat_enc x r)]
    dsimp only
    cases ha with
    | true =>
      simp only [if_true]
      rw [decListOf_enc decSparseRow encSparseRow t.2.2.2
        (fun x _ r => decSparseRow_enc x r)]
    | false =>
      simp only [Bool.false_eq_true, if_false, List.nil_append]
  | false =>
    simp only [Bool.false_eq_true, if_false, List.nil_append]
    cases ha with
    | true =>
      simp only [if_true]
      rw [decListOf_enc decSparseRow encSparseRow t.2.2.2
        (fun x _ r => decSparseRow_enc x r)]
    | false =>
      simp only [Bool.false_eq_true, if_false, List.nil_append]

theorem decListOf_buckets (hp ha : Bool)
    (l : List (List Sample × List Sample × List Nat × List SparseRow)) (r : List Int) :
    decListOf (decBucket hp ha) (encListOf (encBucket hp ha) l ++ r)
      = some (l.map (fun t => (t.1, t.2.1, (if hp then t.2.2.1 else []),
          (if ha then t.2.2.2 else []))), r) :=
  decListOf_encMap _ _ _ l (fun x _ r => decBucket_enc hp ha x r) r

theorem bucketsOf_length (ds : ParallelDataSet) :
    (bucketsOf ds).length = ds.source.length := by
  simp [bucketsOf]

theorem bucketsOf_map_src (ds : ParallelDataSet) :
    (bucketsOf ds).map (fun t => t.1) = ds.source := by
  rw [bucketsOf, List.map_map]
  exact map_range_getD _ _ _ rfl

theorem bucketsOf_map_tgt (ds : ParallelDataSet)
    (hlen : ds.target.length = ds.source.length) :
    (bucketsOf ds).map (fun t => t.2.1) = ds.target := by
  rw [bucketsOf, List.map_map]
  exact map_range_getD _ _ _ hlen

theorem bucketsOf_map_prep (ds : ParallelDataSet) (pl : List (List Nat))
    (hp : ds.prepended_source_length = some pl)
    (hlen : pl.length = ds.source.length) :
    (bucketsOf ds).map (fun t => t.2.2.1) = pl := by
  rw [bucketsOf, List.map_map]
  show (List.range ds.source.length).map
    (fun b => (ds.prepended_source_length.getD []).getD b []) = pl
  rw [hp]
  exact map_range_getD _ _ _ hlen

theorem bucketsOf_map_align (ds : ParallelDataSet) (al : List (List SparseRow))
    (ha : ds.alignment_matrix = some al)
    (hlen : al.length = ds.source.length) :
    (bucketsOf ds).map (fun t => t.2.2.2) = al := by
  rw [bucketsOf, List.map_map]
  show (List.range ds.source.length).map
    (fun b => (ds.alignment_matrix.getD []).getD b []) = al
  rw [ha]
  exact map_range_getD _ _ _ hlen

/-- The payload written by `save` is the bucket-record list section. -/
theorem save_stream (ds : ParallelDataSet) (hp ha : Bool) :
    (ds.source.length : Int) :: ((bucketsOf ds).map (encBucket hp ha)).flatten
      = encListOf (encBucket hp ha) (bucketsOf ds) ++ [] := by
  rw [List.append_nil, encListOf, bucketsOf_length]

theorem decListOf_buckets_ff
    (l : List (List Sample × List Sample × List Nat × List SparseRow)) (r : List Int) :
    decListOf (decBucket false false) (encListOf (encBucket false false) l ++ r)
      = some (l.map (fun t => (t.1, t.2.1, ([] : List Nat), ([] : List SparseRow))), r) := by
  rw [decListOf_buckets]
  simp

theorem decListOf_buckets_tf
    (l : List (List Sample × List Sample × List Nat × List SparseRow)) (r : List Int) :
    decListOf (decBucket true false) (encListOf (encBucket true false) l ++ r)
      = some (l.map (fun t => (t.1, t.2.1, t.2.2.1, ([] : List SparseRow))), r) := by
  rw [decListOf_buckets]
  simp

theorem decListOf_buckets_ft
    (l : List (List Sample × List Sample × List Nat × List SparseRow)) (r : List Int) :
    decListOf (decBucket false true) (encListOf (encBucket false true) l ++ r)
      = some (l.map (fun t => (t.1, t.2.1, ([] : List Nat), t.2.2.2)), r) := by
  rw [decListOf_buckets]
  simp

theorem decListOf_buckets_tt
    (l : List (List Sample × List Sample × List Nat × List SparseRow)) (r : List Int) :
    decListOf (decBucket true true) (encListOf (encBucket true true) l ++ r)
      = some (l, r) := by
  rw [decListOf_buckets]
  simp

/-- C2: `save` followed by `load` reconstructs the dataset exactly — source,
target and both optional arrays element-wise identical, with the exact
sparse alignment structure (per-sample column indices, values and width)
preserved — the format being auto-detected from the marker; and a
legacy-format `save`/`load` reconstructs source and target identically with
the optional sections absent. -/
theorem c2_save_load_roundtrip (ds : ParallelDataSet) (h : pdsWf ds = true) :
    ParallelDataSet.load (ds.save false) = some ds ∧
    ParallelDataSet.load (ds.save true) = some ⟨ds.source, ds.target, none, none⟩ := by
  have hwf := h
  rw [pdsWf, Bool.and_eq_true, Bool.and_eq_true] at hwf
  obtain ⟨⟨htgt, hprep⟩, halign⟩ := hwf
  obtain ⟨htlen, _⟩ := bucketLensOk_spec htgt
  constructor
  · -- current format
    rw [ParallelDataSet.save]
    rw [if_neg (by simp)]
    cases hps : ds.prepended_source_length with
    | none =>
      cases has : ds.alignment_matrix with
      | none =>
        simp only [Option.isSome_none, Bool.false_eq_true, if_false]
        rw [ParallelDataSet.load]
        rw [if_neg (by norm_num), if_pos rfl]
        rw [pdsLoadCurrent]
        rw [if_pos (show (0 : Int) = 0 ∨ (0 : Int) = 1 from Or.inl rfl),
          if_pos (show (0 : Int) = 0 ∨ (0 : Int) = 1 from Or.inl rfl)]
        rw [save_stream ds _ _]
        simp only [show (decide ((0 : Int) = 1)) = false from rfl]
        rw [decListOf_buckets_ff (bucketsOf ds) []]
        dsimp only
        rw [if_neg (show ¬ ((0 : Int) = 1) from by norm_num),
          if_neg (show ¬ ((0 : Int) = 1) from by norm_num)]
        rw [List.map_map, List.map_map]
        simp only [Function.comp_def]
        rw [bucketsOf_map_src, bucketsOf_map_tgt ds htlen]
        rw [show (⟨ds.source, ds.target, none, none⟩ : ParallelDataSet) = ds from
          pds_ext rfl rfl hps.symm has.symm]
      | some al =>
        rw [has] at halign
        obtain ⟨hallen, _⟩ := bucketLensOk_spec halign
        simp only [Option.isSome_none, Option.isSome_some, Bool.false_eq_true,
          if_false, if_true]
        rw [ParallelDataSet.load]
        rw [if_neg (by norm_num), if_pos rfl]
        rw [pdsLoadCurrent]
        rw [if_pos (show (0 : Int) = 0 ∨ (0 : Int) = 1 from Or.inl rfl),
          if_pos (show (1 : Int) = 0 ∨ (1 : Int) = 1 from Or.inr rfl)]
        rw [save_stream ds _ _]
        simp only [show ((1 : Int) = 1) = True from by norm_num,
          show ((0 : Int) = 1) = False from by norm_num,
          decide_True, decide_False, if_true, if_false]
        rw [decListOf_buckets_ft (bucketsOf ds) []]
        dsimp only
        rw [List.map_map, List.map_map, List.map_map]
        simp only [Function.comp_def]
        rw [bucketsOf_map_src, bucketsOf_map_tgt ds htlen,
          bucketsOf_map_align ds al has hallen]
        rw [show (⟨ds.source, ds.target, none, some al⟩ : ParallelDataSet) = ds from
          pds_ext rfl rfl hps.symm has.symm]
    | some pl =>
      rw [hps] at hprep
      obtain ⟨hplen, _⟩ := bucketLensOk_spec hprep
      cases has : ds.alignment_matrix with
      | none =>
        simp only [Option.isSome_none, Option.isSome_some, Bool.false_eq_true,
          if_false, if_true]
        rw [ParallelDataSet.load]
        rw [if_neg (by norm_num), if_pos rfl]
        rw [pdsLoadCurrent]
        rw [if_pos (show (1 : Int) = 0 ∨ (1 : Int) = 1 from Or.inr rfl),
          if_pos (show (0 : Int) = 0 ∨ (0 : Int) = 1 from Or.inl rfl)]
        rw [save_stream ds _ _]
        simp only [show ((1 : Int) = 1) = True from by norm_num,
          show ((0 : Int) = 1) = False from by norm_num,
          decide_True, decide_False, if_true, if_false]
        rw [decListOf_buckets_tf (bucketsOf ds) []]
        dsimp only
        rw [List.map_map, List.map_map, List.map_map]
        simp only [Function.comp_def]
        rw [bucketsOf_map_src, bucketsOf_map_tgt ds htlen,
          bucketsOf_map_prep ds pl hps hplen]
        rw [show (⟨ds.source, ds.target, some pl, none⟩ : ParallelDataSet) = ds from
          pds_ext rfl rfl hps.symm has.symm]
      | some al =>
        rw [has] at halign
        obtain ⟨hallen, _⟩ := bucketLensOk_spec halign
        simp only [Option.isSome_some, if_true]
        rw [ParallelDataSet.load]
        rw [if_neg (by norm_num), if_pos rfl]
        rw [pdsLoadCurrent]
        rw [if_pos (show (1 : Int) = 0 ∨ (1 : Int) = 1 from Or.inr rfl),
          if_pos (show (1 : Int) = 0 ∨ (1 : Int) = 1 from Or.inr rfl)]
        rw [save_stream ds _ _]
        simp only [show ((1 : Int) = 1) = True from by norm_num,
          show ((0 : Int) = 1) = False from by norm_num,
          decide_True, decide_False, if_true, if_false]
        rw [decListOf_buckets_tt (bucketsOf ds) []]
        dsimp only
        rw [bucketsOf_map_src, bucketsOf_map_tgt ds htlen,
          bucketsOf_map_prep ds pl hps hplen, bucketsOf_map_align ds al has hallen]
        rw [show (⟨ds.source, ds.target, some pl, some al⟩ : ParallelDataSet) = ds from
          pds_ext rfl rfl hps.symm has.symm]
  · -- legacy format
    rw [ParallelDataSet.save]
    rw [if_pos rfl]
    rw [ParallelDataSet.load]
    rw [if_pos rfl]
    rw [pdsLoadLegacy]
    rw [save_stream ds _ _, decListOf_buckets_ff (bucketsOf ds) []]
    dsimp only
    rw [List.map_map, List.map_map]
    simp only [Function.comp_def]
    rw [bucketsOf_map_src, bucketsOf_map_tgt ds htlen]

/-- A concrete dataset for the C2 witness: two buckets, one sample each,
with both optional arrays present and a non-trivial sparse alignment row. -/
def saveLoadDemo : ParallelDataSet :=
  ⟨[[[[1], [2]]], [[[3]]]], [[[[4]]], [[[5]]]], some [[7], [8]],
   some [[⟨[0], [1/2], 2⟩], [⟨[], [], 2⟩]]⟩

/-- Witness for C2 at the concrete dataset `saveLoadDemo`. -/
theorem c2_save_load_roundtrip_witness :
    pdsWf saveLoadDemo = true ∧
    (ParallelDataSet.load (saveLoadDemo.save false) = some saveLoadDemo ∧
     ParallelDataSet.load (saveLoadDemo.save true)
       = some ⟨saveLoadDemo.source, saveLoadDemo.target, none, none⟩) :=
  ⟨by decide, c2_save_load_roundtrip saveLoadDemo (by decide)⟩

/-! ## `data_io`: the Sample Iterator (C1) and the Sharded Iterator (C4)

Modelled from the spec, sections 4.5 and 4.7 (with `data_io.py` absent).
The iterator state holds the bucket-wise permuted dataset, the shuffled list
of `(bucket, start_offset)` batch indices, the cursor into it, and the
per-bucket permutations with their inverses.  Each reset consumes fresh
abstract randomness: one stream for the batch-order shuffle and one family
of per-bucket streams for the data permutations. -/

structure RNGPair where
  sDraws : Nat → Nat
  pDraws : Nat → Nat → Nat

structure SampleIterState where
  data : ParallelDataSet
  batch_indices : List (Nat × Nat)
  curr : Nat
  perms : List (List Nat)
  invPerms : List (List Nat)
deriving DecidableEq

structure Batch where
  bsource : List Sample
  btarget : List Sample
  blabel : List Sample
  blengths : List Nat
  bprep : Option (List Nat)
  balign : Option (List SparseRow)
deriving DecidableEq

/-- Modelled from the spec: `get_batch_indices(dataset, bucket_batch_sizes)`
(absent `data_io.py`), spec section 4.5: the ordered `(bucket_index,
start_offset)` pairs covering every full batch fitting within each bucket's
sample count — `floor(count / batch_size)` batches per bucket, no partial
trailing batch. -/
def get_batch_indices (counts : List Nat) (bbs : List Nat) : List (Nat × Nat) :=
  ((List.range counts.length).map (fun b =>
    (List.range (counts.getD b 0 / bbs.getD b 1)).map
      (fun j => (b, j * bbs.getD b 1)))).flatten

/-- `random.shuffle`, modelled via the Fisher-Yates index permutation. -/
def shuffleList (draws : Nat → Nat) (l : List (Nat × Nat)) : List (Nat × Nat) :=
  (npPermutation draws l.length).map (fun i => l.getD i (0, 0))

def sliceArr (l : List γ) (start bs : Nat) : List γ := (l.drop start).take bs

/-- The batch cut out at one `(bucket, start_offset)` index: contiguous
slices of every parallel array, the shifted target/label pair (section 4.6)
and the derived per-sample lengths. -/
def mkBatch (d : ParallelDataSet) (bbs : List Nat) (bi : Nat × Nat) : Batch :=
  let bs := bbs.getD bi.1 1
  let tl := sliceArr (d.target.getD bi.1 []) bi.2 bs
  let shifted := create_target_and_shifted_label_sequences tl
  { bsource := sliceArr (d.source.getD bi.1 []) bi.2 bs
  , btarget := shifted.1
  , blabel := shifted.2
  , blengths := shifted.1.map derived_length
  , bprep := d.prepended_source_length.map (fun pl => sliceArr (pl.getD bi.1 []) bi.2 bs)
  , balign := d.alignment_matrix.map (fun al => sliceArr (al.getD bi.1 []) bi.2 bs) }

/-- Modelled from the spec: construction/`reset()` of `ParallelSampleIter`
(absent `data_io.py`), spec section 4.5: permute the dataset bucket-wise
with a fresh seeded permutation, recompute and shuffle the batch indices,
reset the cursor. -/
def samplerInit (rng : RNGPair) (ds : ParallelDataSet) (bbs : List Nat) :
    SampleIterState :=
  let pr := get_permutations rng.pDraws (get_bucket_counts ds)
  let pd := ds.permute pr.1
  { data := pd
  , batch_indices := shuffleList rng.sDraws (get_batch_indices (get_bucket_counts pd) bbs)
  , curr := 0
  , perms := pr.1
  , invPerms := pr.2 }

/-- `reset()` on a live iterator: un-permute the data with the stored
inverses, then re-initialize with fresh randomness. -/
def samplerReset (rng : RNGPair) (st : SampleIterState) (bbs : List Nat) :
    SampleIterState :=
  samplerInit rng (st.data.permute st.invPerms) bbs

/-- `next()`: emit the batch at the cursor and advance, or `none` when the
epoch is exhausted (`iter_next()` false). -/
def samplerNext (bbs : List Nat) (st : SampleIterState) :
    Option (Batch × SampleIterState) :=
  if st.curr < st.batch_indices.length then
    some (mkBatch st.data bbs (st.batch_indices.getD st.curr (0, 0)),
      { st with curr := st.curr + 1 })
  else none

structure IterCheckpoint where
  ck_batch_indices : List (Nat × Nat)
  ck_curr : Nat
  ck_perms : List (List Nat)
  ck_invPerms : List (List Nat)

/-- Modelled from the spec: `save_state` (absent `data_io.py`), spec
sections 4.5 and 6: serialize the shuffled batch order with the cursor
(the bucket/cursor position) and all permutations with their inverses. -/
def save_state (st : SampleIterState) : IterCheckpoint :=
  ⟨st.batch_indices, st.curr, st.perms, st.invPerms⟩

/-- Modelled from the spec: `load_state` (absent `data_io.py`): restore the
checkpointed batch order, cursor and permutations, undoing the iterator's
own current permutation before applying the checkpointed one. -/
def load_state (st : SampleIterState) (ck : IterCheckpoint) : SampleIterState :=
  { data := (st.data.permute st.invPerms).permute ck.ck_perms
  , batch_indices := ck.ck_batch_indices
  , curr := ck.ck_curr
  , perms := ck.ck_perms
  , invPerms := ck.ck_invPerms }

/-- The batches produced by `m` successive `next()` calls. -/
def samplerRun (bbs : List Nat) : Nat → SampleIterState → List Batch
  | 0, _ => []
  | m + 1, st =>
    match samplerNext bbs st with
    | none => []
    | some (b, st2) => b :: samplerRun bbs m st2

/-- The state after `k` `next()` calls (stopping at exhaustion). -/
def advanceK (bbs : List Nat) : Nat → SampleIterState → SampleIterState
  | 0, st => st
  | k + 1, st =>
    match samplerNext bbs st with
    | none => st
    | some (_, st2) => advanceK bbs k st2

theorem samplerNext_some_shape (bbs : List Nat) (st : SampleIterState) (b : Batch)
    (st2 : SampleIterState) (h : samplerNext bbs st = some (b, st2)) :
    st2 = { st with curr := st.curr + 1 } := by
  rw [samplerNext] at h
  by_cases hlt : st.curr < st.batch_indices.length
  · rw [if_pos hlt] at h
    exact (congrArg Prod.snd (Option.some.inj h)).symm
  · rw [if_neg hlt] at h
    simp at h

/-- `next()` touches only the cursor. -/
theorem advanceK_shape (bbs : List Nat) :
    ∀ (k : Nat) (st : SampleIterState), ∃ c, advanceK bbs k st = { st with curr := c } := by
  intro k
  induction k with
  | zero => intro st; exact ⟨st.curr, rfl⟩
  | succ k ih =>
    intro st
    rw [advanceK]
    cases hnext : samplerNext bbs st with
    | none => exact ⟨st.curr, rfl⟩
    | some p =>
      obtain ⟨b, st2⟩ := p
      have hst2 : st2 = { st with curr := st.curr + 1 } :=
        samplerNext_some_shape bbs st b st2 hnext
      obtain ⟨c, hc⟩ := ih { st with curr := st.curr + 1 }
      refine ⟨c, ?_⟩
      dsimp only
      rw [hst2, hc]

theorem sampler_ext {a b : SampleIterState} (hd : a.data = b.data)
    (hb : a.batch_indices = b.batch_indices) (hcu : a.curr = b.curr)
    (hp : a.perms = b.perms) (hi : a.invPerms = b.invPerms) : a = b := by
  cases a
  cases b
  simp_all

theorem samplerInit_data (rng : RNGPair) (ds : ParallelDataSet) (bbs : List Nat) :
    (samplerInit rng ds bbs).data
      = ds.permute (get_permutations rng.pDraws (get_bucket_counts ds)).1 := rfl

theorem samplerInit_perms (rng : RNGPair) (ds : ParallelDataSet) (bbs : List Nat) :
    (samplerInit rng ds bbs).perms
      = (get_permutations rng.pDraws (get_bucket_counts ds)).1 := rfl

theorem samplerInit_invPerms (rng : RNGPair) (ds : ParallelDataSet) (bbs : List Nat) :
    (samplerInit rng ds bbs).invPerms
      = (get_permutations rng.pDraws (get_bucket_counts ds)).2 := rfl

/-- C1: at every point mid-epoch, `save_state` on a running iterator and
`load_state` on a freshly constructed (and reset) iterator over the same
dataset — with arbitrary, unrelated fresh randomness — produce an iterator
whose subsequent batch sequence is identical to what the original,
uninterrupted iterator would have produced. -/
theorem c1_save_load_state_roundtrip (rng1 rng2 : RNGPair) (ds : ParallelDataSet)
    (bbs : List Nat) (k : Nat) (h : pdsWf ds = true) :
    ∀ m, samplerRun bbs m
        (load_state (samplerInit rng2 ds bbs)
          (save_state (advanceK bbs k (samplerInit rng1 ds bbs))))
      = samplerRun bbs m (advanceK bbs k (samplerInit rng1 ds bbs)) := by
  obtain ⟨c, hc⟩ := advanceK_shape bbs k (samplerInit rng1 ds bbs)
  have hload : load_state (samplerInit rng2 ds bbs)
      (save_state (advanceK bbs k (samplerInit rng1 ds bbs)))
      = advanceK bbs k (samplerInit rng1 ds bbs) := by
    apply sampler_ext
    · show ((samplerInit rng2 ds bbs).data.permute (samplerInit rng2 ds bbs).invPerms).permute
          (advanceK bbs k (samplerInit rng1 ds bbs)).perms
        = (advanceK bbs k (samplerInit rng1 ds bbs)).data
      rw [hc]
      show ((samplerInit rng2 ds bbs).data.permute (samplerInit rng2 ds bbs).invPerms).permute
          (samplerInit rng1 ds bbs).perms = (samplerInit rng1 ds bbs).data
      rw [samplerInit_data, samplerInit_invPerms, samplerInit_perms, samplerInit_data,
        pds_permute_roundtrip rng2.pDraws ds h]
    · rw [hc]
      rfl
    · rw [hc]
      rfl
    · rw [hc]
      rfl
    · rw [hc]
      rfl
  intro m
  rw [hload]

/-- A concrete dataset for the C1 witness: one bucket with two samples. -/
def iterDemo : ParallelDataSet :=
  ⟨[[[[1]], [[2]]]], [[[[3]], [[4]]]], none, none⟩

/-- Witness for C1: the demo dataset, batch size 1, saving after one step. -/
theorem c1_save_load_state_roundtrip_witness :
    pdsWf iterDemo = true ∧
    ∀ m, samplerRun [1] m
        (load_state (samplerInit ⟨fun _ => 1, fun _ _ => 1⟩ iterDemo [1])
          (save_state (advanceK [1] 1 (samplerInit ⟨fun _ => 0, fun _ _ => 0⟩ iterDemo [1]))))
      = samplerRun [1] m (advanceK [1] 1 (samplerInit ⟨fun _ => 0, fun _ _ => 0⟩ iterDemo [1])) :=
  ⟨by decide, c1_save_load_state_roundtrip ⟨fun _ => 0, fun _ _ => 0⟩
    ⟨fun _ => 1, fun _ _ => 1⟩ iterDemo [1] 1 (by decide)⟩

/-! ## The Sharded Iterator (C4) -/

structure ShardedState where
  shards : List ParallelDataSet
  shard_index : Nat
  cur : SampleIterState

/-- `random.shuffle` of the shard list. -/
def shuffleShards (draws : Nat → Nat) (l : List ParallelDataSet) :
    List ParallelDataSet :=
  (npPermutation draws l.length).map (fun i => l.getD i default)

/-- Modelled from the spec: construction/`reset()` of
`ShardedParallelSampleIter` (absent `data_io.py`), spec section 4.7:
reshuffle the shard visitation order (only when there is more than one
shard), move to the first shard and open a fresh Sample Iterator over it. -/
def shardedInit (sdraws : Nat → Nat) (rngs : Nat → RNGPair)
    (shards : List ParallelDataSet) (bbs : List Nat) : ShardedState :=
  let order := if 1 < shards.length then shuffleShards sdraws shards else shards
  ⟨order, 0, samplerInit (rngs 0) (order.getD 0 default) bbs⟩

/-- `reset()` on a live sharded iterator: reshuffle the current shard order
and reopen the first shard. -/
def shardedReset (sdraws : Nat → Nat) (rngs : Nat → RNGPair)
    (st : ShardedState) (bbs : List Nat) : ShardedState :=
  let order := if 1 < st.shards.length then shuffleShards sdraws st.shards
    else st.shards
  ⟨order, 0, samplerInit (rngs 0) (order.getD 0 default) bbs⟩

/-- `next()` of the sharded iterator: delegate to the current shard's
iterator, transparently advancing to (and freshly opening) subsequent
shards when the current one is exhausted; `none` when the epoch is over. -/
def shardedNextGo (rngs : Nat → RNGPair) (bbs : List Nat)
    (shards : List ParallelDataSet) (i : Nat) (cur : SampleIterState) :
    Option (Batch × (Nat × SampleIterState)) :=
  match samplerNext bbs cur with
  | some bc => some (bc.1, (i, bc.2))
  | none =>
    if h : i + 1 < shards.length then
      shardedNextGo rngs bbs shards (i + 1)
        (samplerInit (rngs (i + 1)) (shards.getD (i + 1) default) bbs)
    else none
termination_by shards.length - i

/-- The batches produced by `n` successive sharded `next()` calls. -/
def shardedRunN (rngs : Nat → RNGPair) (bbs : List Nat)
    (shards : List ParallelDataSet) : Nat → Nat × SampleIterState → List Batch
  | 0, _ => []
  | n + 1, s =>
    match shardedNextGo rngs bbs shards s.1 s.2 with
    | none => []
    | some (b, s2) => b :: shardedRunN rngs bbs shards n s2

/-- The number of full batches one dataset yields per epoch:
`Σ_buckets floor(count / batch_size)`. -/
def totalBatches (ds : ParallelDataSet) (bbs : List Nat) : Nat :=
  ((List.range (get_bucket_counts ds).length).map
    (fun b => (get_bucket_counts ds).getD b 0 / bbs.getD b 1)).sum

def remainingBatches (st : SampleIterState) : Nat :=
  st.batch_indices.length - st.curr

/-- The batches still owed by the shards after position `i`. -/
def restAfter (shards : List ParallelDataSet) (bbs : List Nat) (i : Nat) : Nat :=
  ((shards.drop (i + 1)).map (fun sh => totalBatches sh bbs)).sum

theorem shuffleList_length (draws : Nat → Nat) (l : List (Nat × Nat)) :
    (shuffleList draws l).length = l.length := by
  rw [shuffleList, List.length_map, npPermutation_length]

theorem get_batch_indices_length (counts bbs : List Nat) :
    (get_batch_indices counts bbs).length
      = ((List.range counts.length).map
          (fun b => counts.getD b 0 / bbs.getD b 1)).sum := by
  rw [get_batch_indices, List.length_flatten, List.map_map]
  congr 1
  apply List.map_congr_left
  intro b _
  simp

/-- A freshly opened iterator owes exactly `totalBatches` batches. -/
theorem remaining_samplerInit (rng : RNGPair) (ds : ParallelDataSet) (bbs : List Nat) :
    remainingBatches (samplerInit rng ds bbs) = totalBatches ds bbs := by
  show (shuffleList rng.sDraws (get_batch_indices (get_bucket_counts
      (ds.permute (get_permutations rng.pDraws (get_bucket_counts ds)).1)) bbs)).length
      - 0 = totalBatches ds bbs
  rw [Nat.sub_zero, shuffleList_length, get_batch_indices_length,
    get_bucket_counts_permute rng.pDraws ds]
  rfl

theorem shuffleShards_perm (draws : Nat → Nat) (l : List ParallelDataSet) :
    List.Perm (shuffleShards draws l) l := by
  rw [shuffleShards]
  have h1 := (npPermutation_perm draws l.length).map (fun i => l.getD i default)
  have h2 : (List.range l.length).map (fun i => l.getD i default) = l :=
    map_range_getD l default l.length rfl
  rw [h2] at h1
  exact h1

theorem samplerNext_none_iff (bbs : List Nat) (st : SampleIterState) :
    samplerNext bbs st = none ↔ remainingBatches st = 0 := by
  rw [samplerNext, remainingBatches]
  by_cases hlt : st.curr < st.batch_indices.length
  · rw [if_pos hlt]
    simp
    omega
  · rw [if_neg hlt]
    simp
    omega

theorem shardedNextGo_some (rngs : Nat → RNGPair) (bbs : List Nat)
    (shards : List ParallelDataSet) (i : Nat) (cur : SampleIterState)
    (b : Batch) (cur2 : SampleIterState) (hnext : samplerNext bbs cur = some (b, cur2)) :
    shardedNextGo rngs bbs shards i cur = some (b, (i, cur2)) := by
  rw [shardedNextGo, hnext]

theorem shardedNextGo_exhausted (rngs : Nat → RNGPair) (bbs : List Nat)
    (shards : List ParallelDataSet) (i : Nat) (cur : SampleIterState)
    (hnext : samplerNext bbs cur = none) :
    shardedNextGo rngs bbs shards i cur
      = if h2 : i + 1 < shards.length then
          shardedNextGo rngs bbs shards (i + 1)
            (samplerInit (rngs (i + 1)) (shards.getD (i + 1) default) bbs)
        else none := by
  rw [shardedNextGo, hnext]

theorem shardedRunN_cons (rngs : Nat → RNGPair) (bbs : List Nat)
    (shards : List ParallelDataSet) (n i : Nat) (cur : SampleIterState)
    (b : Batch) (i2 : Nat) (cur2 : SampleIterState)
    (hgo : shardedNextGo rngs bbs shards i cur = some (b, (i2, cur2))) :
    shardedRunN rngs bbs shards (n + 1) (i, cur)
      = b :: shardedRunN rngs bbs shards n (i2, cur2) := by
  rw [shardedRunN]
  dsimp only
  rw [hgo]

theorem shardedRunN_stop (rngs : Nat → RNGPair) (bbs : List Nat)
    (shards : List ParallelDataSet) (n i : Nat) (cur : SampleIterState)
    (hgo : shardedNextGo rngs bbs shards i cur = none) :
    shardedRunN rngs bbs shards (n + 1) (i, cur) = [] := by
  rw [shardedRunN]
  dsimp only
  rw [hgo]

theorem shardedRunN_jump (rngs : Nat → RNGPair) (bbs : List Nat)
    (shards : List ParallelDataSet) (n i : Nat) (cur : SampleIterState)
    (hnext : samplerNext bbs cur = none) (hjump : i + 1 < shards.length) :
    shardedRunN rngs bbs shards n (i, cur)
      = shardedRunN rngs bbs shards n
          (i + 1, samplerInit (rngs (i + 1)) (shards.getD (i + 1) default) bbs) := by
  cases n with
  | zero => rfl
  | succ n =>
    conv_lhs => rw [shardedRunN]
    conv_rhs => rw [shardedRunN]
    dsimp only
    rw [shardedNextGo_exhausted rngs bbs shards i cur hnext, dif_pos hjump]

/-- On the last shard the run length is bounded by the current iterator's
remaining batches. -/
theorem shardedRunN_length_last (rngs : Nat → RNGPair) (bbs : List Nat)
    (shards : List ParallelDataSet) (i : Nat) (hlast : ¬ (i + 1 < shards.length)) :
    ∀ (n : Nat) (cur : SampleIterState),
      (shardedRunN rngs bbs shards n (i, cur)).length
        = min n (remainingBatches cur) := by
  intro n
  induction n with
  | zero =>
    intro cur
    simp [shardedRunN]
  | succ n ih =>
    intro cur
    cases hnext : samplerNext bbs cur with
    | some bc =>
      obtain ⟨b, cur2⟩ := bc
      rw [shardedRunN_cons rngs bbs shards n i cur b i cur2
        (shardedNextGo_some rngs bbs shards i cur b cur2 hnext)]
      rw [List.length_cons, ih cur2]
      have hshape := samplerNext_some_shape bbs cur b cur2 hnext
      have hlt : cur.curr < cur.batch_indices.length := by
        by_contra hcon
        rw [samplerNext, if_neg hcon] at hnext
        simp at hnext
      have hrem : remainingBatches cur2 = remainingBatches cur - 1 := by
        rw [hshape, remainingBatches, remainingBatches]
        show cur.batch_indices.length - (cur.curr + 1) = _
        omega
      rw [hrem, remainingBatches] at *
      omega
    | none =>
      have hzero : remainingBatches cur = 0 := (samplerNext_none_iff bbs cur).mp hnext
      rw [shardedRunN_stop rngs bbs shards n i cur
        (by rw [shardedNextGo_exhausted rngs bbs shards i cur hnext, dif_neg hlast])]
      rw [hzero]
      simp

/-- The run length from shard position `i` is bounded by the remaining
batches of the open iterator plus those owed by the later shards. -/
theorem shardedRunN_length_go (rngs : Nat → RNGPair) (bbs : List Nat)
    (shards : List ParallelDataSet) :
    ∀ (d i : Nat), shards.length - i ≤ d → ∀ (n : Nat) (cur : SampleIterState),
      (shardedRunN rngs bbs shards n (i, cur)).length
        = min n (remainingBatches cur + restAfter shards bbs i) := by
  intro d
  induction d with
  | zero =>
    intro i hi n cur
    have hlast : ¬ (i + 1 < shards.length) := by omega
    have hrest : restAfter shards bbs i = 0 := by
      rw [restAfter, List.drop_eq_nil_of_le (by omega)]
      rfl
    rw [hrest, Nat.add_zero]
    exact shardedRunN_length_last rngs bbs shards i hlast n cur
  | succ d ihd =>
    intro i hi n cur
    by_cases hlast : ¬ (i + 1 < shards.length)
    · have hrest : restAfter shards bbs i = 0 := by
        rw [restAfter, List.drop_eq_nil_of_le (by omega)]
        rfl
      rw [hrest, Nat.add_zero]
      exact shardedRunN_length_last rngs bbs shards i hlast n cur
    push_neg at hlast
    induction n generalizing cur with
    | zero => simp [shardedRunN]
    | succ n ihn =>
      cases hnext : samplerNext bbs cur with
      | some bc =>
        obtain ⟨b, cur2⟩ := bc
        rw [shardedRunN_cons rngs bbs shards n i cur b i cur2
          (shardedNextGo_some rngs bbs shards i cur b cur2 hnext)]
        rw [List.length_cons, ihn cur2]
        have hshape := samplerNext_some_shape bbs cur b cur2 hnext
        have hlt : cur.curr < cur.batch_indices.length := by
          by_contra hcon
          rw [samplerNext, if_neg hcon] at hnext
          simp at hnext
        have hrem : remainingBatches cur2 = remainingBatches cur - 1 := by
          rw [hshape, remainingBatches, remainingBatches]
          show cur.batch_indices.length - (cur.curr + 1) = _
          omega
        rw [hrem, remainingBatches] at *
        omega
      | none =>
        have hzero : remainingBatches cur = 0 := (samplerNext_none_iff bbs cur).mp hnext
        rw [shardedRunN_jump rngs bbs shards (n + 1) i cur hnext hlast]
        rw [ihd (i + 1) (by omega) (n + 1) _]
        rw [remaining_samplerInit]
        have hsplit : restAfter shards bbs i
            = totalBatches (shards.getD (i + 1) default) bbs
              + restAfter shards bbs (i + 1) := by
          rw [restAfter, restAfter, List.drop_eq_getElem_cons hlast,
            List.map_cons, List.sum_cons, List.getD_eq_getElem _ _ hlast]
        rw [hzero, hsplit]
        omega

/-- A sharded iterator over a single shard behaves exactly like the plain
iterator it wraps. -/
theorem shardedRunN_single (rngs : Nat → RNGPair) (bbs : List Nat)
    (d : ParallelDataSet) :
    ∀ (m : Nat) (cur : SampleIterState),
      shardedRunN rngs bbs [d] m (0, cur) = samplerRun bbs m cur := by
  intro m
  induction m with
  | zero => intro cur; rfl
  | succ m ih =>
    intro cur
    cases hnext : samplerNext bbs cur with
    | some bc =>
      obtain ⟨b, cur2⟩ := bc
      rw [shardedRunN_cons rngs bbs [d] m 0 cur b 0 cur2
        (shardedNextGo_some rngs bbs [d] 0 cur b cur2 hnext)]
      conv_rhs => rw [samplerRun, hnext]
      rw [ih cur2]
    | none =>
      have hstop : shardedNextGo rngs bbs [d] 0 cur = none := by
        rw [shardedNextGo_exhausted rngs bbs [d] 0 cur hnext,
          dif_neg (show ¬ (0 + 1 < ([d] : List ParallelDataSet).length) from by simp)]
      rw [shardedRunN_stop rngs bbs [d] m 0 cur hstop]
      conv_rhs => rw [samplerRun, hnext]

/-- C4: a ShardedParallelSampleIter over N shards visits exactly
`Σ_shards Σ_buckets floor(count / batch_size)` batches per epoch (the run
produces `min n total` batches for every fuel `n`, i.e. exactly `total` and
then stops); over a single shard it produces, given equal seeds, exactly the
same batch sequence as a plain ParallelSampleIter over the same dataset; and
the same equivalence holds again after both iterators are reset for a new
epoch (with equal fresh seeds). -/
theorem c4_sharded_iter (sdraws sdraws2 : Nat → Nat) (rngs rngs2 : Nat → RNGPair)
    (bbs : List Nat) (shards : List ParallelDataSet) (d : ParallelDataSet) (k : Nat)
    (h : pdsWf d = true) :
    (∀ n, (shardedRunN rngs bbs (shardedInit sdraws rngs shards bbs).shards n
        ((shardedInit sdraws rngs shards bbs).shard_index,
         (shardedInit sdraws rngs shards bbs).cur)).length
      = min n ((shards.map (fun sh => totalBatches sh bbs)).sum)) ∧
    (∀ m, shardedRunN rngs bbs (shardedInit sdraws rngs [d] bbs).shards m
        ((shardedInit sdraws rngs [d] bbs).shard_index,
         (shardedInit sdraws rngs [d] bbs).cur)
      = samplerRun bbs m (samplerInit (rngs 0) d bbs)) ∧
    (∀ m, shardedRunN rngs2 bbs
        (shardedReset sdraws2 rngs2 (shardedInit sdraws rngs [d] bbs) bbs).shards m
        ((shardedReset sdraws2 rngs2 (shardedInit sdraws rngs [d] bbs) bbs).shard_index,
         (shardedReset sdraws2 rngs2 (shardedInit sdraws rngs [d] bbs) bbs).cur)
      = samplerRun bbs m
          (samplerReset (rngs2 0) (advanceK bbs k (samplerInit (rngs 0) d bbs)) bbs)) := by
  refine ⟨?_, ?_, ?_⟩
  · intro n
    set order := (shardedInit sdraws rngs shards bbs).shards with horder
    show (shardedRunN rngs bbs order n
      (0, samplerInit (rngs 0) (order.getD 0 default) bbs)).length = _
    rw [shardedRunN_length_go rngs bbs order order.length 0 (by omega) n
      (samplerInit (rngs 0) (order.getD 0 default) bbs)]
    rw [remaining_samplerInit]
    have hsum : totalBatches (order.getD 0 default) bbs + restAfter order bbs 0
        = (order.map (fun sh => totalBatches sh bbs)).sum := by
      cases order with
      | nil => rfl
      | cons o rest =>
        rw [restAfter, List.map_cons, List.sum_cons]
        rfl
    rw [hsum]
    have hperm : (order.map (fun sh => totalBatches sh bbs)).sum
        = (shards.map (fun sh => totalBatches sh bbs)).sum := by
      rw [horder]
      show ((if 1 < shards.length then shuffleShards sdraws shards
        else shards).map (fun sh => totalBatches sh bbs)).sum = _
      by_cases hlen : 1 < shards.length
      · rw [if_pos hlen]
        exact ((shuffleShards_perm sdraws shards).map
          (fun sh => totalBatches sh bbs)).sum_eq
      · rw [if_neg hlen]
    rw [hperm]
  · intro m
    show shardedRunN rngs bbs [d] m (0, samplerInit (rngs 0) d bbs)
      = samplerRun bbs m (samplerInit (rngs 0) d bbs)
    exact shardedRunN_single rngs bbs d m _
  · intro m
    obtain ⟨c, hc⟩ := advanceK_shape bbs k (samplerInit (rngs 0) d bbs)
    have hrestore : (advanceK bbs k (samplerInit (rngs 0) d bbs)).data.permute
        (advanceK bbs k (samplerInit (rngs 0) d bbs)).invPerms = d := by
      rw [hc]
      show ((samplerInit (rngs 0) d bbs).data).permute
        ((samplerInit (rngs 0) d bbs).invPerms) = d
      rw [samplerInit_data, samplerInit_invPerms,
        pds_permute_roundtrip (rngs 0).pDraws d h]
    rw [show samplerReset (rngs2 0) (advanceK bbs k (samplerInit (rngs 0) d bbs)) bbs
          = samplerInit (rngs2 0) d bbs from by rw [samplerReset, hrestore]]
    show shardedRunN rngs2 bbs [d] m (0, samplerInit (rngs2 0) d bbs)
      = samplerRun bbs m (samplerInit (rngs2 0) d bbs)
    exact shardedRunN_single rngs2 bbs d m _

/-- A concrete dataset for the C4 witness: one bucket with two samples. -/
def shardDemo : ParallelDataSet :=
  ⟨[[[[5]], [[6]]]], [[[[7]], [[8]]]], none, none⟩

/-- Witness for C4: two shards of `shardDemo`, batch size 1, concrete draw
streams, one consumed batch before the reset. -/
theorem c4_sharded_iter_witness :
    pdsWf shardDemo = true ∧
    ((∀ n, (shardedRunN (fun _ => ⟨fun _ => 0, fun _ _ => 0⟩) [1]
        (shardedInit (fun _ => 0) (fun _ => ⟨fun _ => 0, fun _ _ => 0⟩)
          [shardDemo, shardDemo] [1]).shards n
        ((shardedInit (fun _ => 0) (fun _ => ⟨fun _ => 0, fun _ _ => 0⟩)
          [shardDemo, shardDemo] [1]).shard_index,
         (shardedInit (fun _ => 0) (fun _ => ⟨fun _ => 0, fun _ _ => 0⟩)
          [shardDemo, shardDemo] [1]).cur)).length
      = min n (([shardDemo, shardDemo].map (fun sh => totalBatches sh [1])).sum)) ∧
    (∀ m, shardedRunN (fun _ => ⟨fun _ => 0, fun _ _ => 0⟩) [1]
        (shardedInit (fun _ => 0) (fun _ => ⟨fun _ => 0, fun _ _ => 0⟩)
          [shardDemo] [1]).shards m
        ((shardedInit (fun _ => 0) (fun _ => ⟨fun _ => 0, fun _ _ => 0⟩)
          [shardDemo] [1]).shard_index,
         (shardedInit (fun _ => 0) (fun _ => ⟨fun _ => 0, fun _ _ => 0⟩)
          [shardDemo] [1]).cur)
      = samplerRun [1] m (samplerInit ⟨fun _ => 0, fun _ _ => 0⟩ shardDemo [1])) ∧
    (∀ m, shardedRunN (fun _ => ⟨fun _ => 1, fun _ _ => 1⟩) [1]
        (shardedReset (fun _ => 1) (fun _ => ⟨fun _ => 1, fun _ _ => 1⟩)
          (shardedInit (fun _ => 0) (fun _ => ⟨fun _ => 0, fun _ _ => 0⟩)
            [shardDemo] [1]) [1]).shards m
        ((shardedReset (fun _ => 1) (fun _ => ⟨fun _ => 1, fun _ _ => 1⟩)
          (shardedInit (fun _ => 0) (fun _ => ⟨fun _ => 0, fun _ _ => 0⟩)
            [shardDemo] [1]) [1]).shard_index,
         (shardedReset (fun _ => 1) (fun _ => ⟨fun _ => 1, fun _ _ => 1⟩)
          (shardedInit (fun _ => 0) (fun _ => ⟨fun _ => 0, fun _ _ => 0⟩)
            [shardDemo] [1]) [1]).cur)
      = samplerRun [1] m
          (samplerReset ⟨fun _ => 1, fun _ _ => 1⟩
            (advanceK [1] 1 (samplerInit ⟨fun _ => 0, fun _ _ => 0⟩ shardDemo [1])) [1]))) :=
  ⟨by decide, c4_sharded_iter (fun _ => 0) (fun _ => 1)
    (fun _ => ⟨fun _ => 0, fun _ _ => 0⟩) (fun _ => ⟨fun _ => 1, fun _ _ => 1⟩)
    [1] [shardDemo, shardDemo] shardDemo 1 (by decide)⟩

end Sockeye
